import Mathlib

/-!
Shallow embedding of the providence-analytics analyzer core
(`src/packages-node/providence-analytics/src/cli/launch-providence-with-extend-docs.js`,
second embedded module: the `Analyzer` class together with `analyzePerAstEntry`,
`posixify`, `ensureAnalyzerResultFormat`, `checkForMatchCompatibility` and
`unwindJsonResult`), plus theorems checking the specification claims against it.

JavaScript values flowing through generic code (query outputs, analysis metadata)
are modelled by an inductive `Json` type; the statically-shaped records of the
code (configs, project metadata, analyzer state) are modelled by Lean structures.
External collaborators (`fs`/manifest reading, `semver.satisfies`,
`InputDataService`, `QueryService`, `ReportService.getCachedResult`,
path utilities) are fields of an `Env` record: the analyzer code under `src/`
only calls them, so they are parameters of the embedding.
Thrown `TypeError`s (property access on `undefined`) are modelled with `Except`.
-/

namespace Providence

/-- Model of a dynamically-typed JavaScript value (JSON-like data). -/
inductive Json where
  | null
  | bool (b : Bool)
  | num (n : Int)
  | str (s : String)
  | arr (elems : List Json)
  | obj (fields : List (String × Json))

/-- Property lookup on a JS object literal (first binding wins; JS objects
have unique keys, so this is ordinary property access). -/
def lookupJson : List (String × Json) → String → Option Json
  | [], _ => none
  | (k, v) :: rest, key => if k = key then some v else lookupJson rest key

/-- Model of `toPosixPath` (`src/program/utils/to-posix-path.js`, not under
`src/`). Modelled from the spec: rewrites a path string "to forward-slash
form", i.e. every backslash becomes a forward slash. -/
def toPosixPath (s : String) : String :=
  String.mk (s.data.map (fun c => if c = '\\' then '/' else c))

mutual

/-- Embedding of `posixify` (source lines 168-185). The JS function mutates
`data` in place; this is the corresponding pure transformation. For an object
it walks every entry: nested objects and arrays are recursed into, and a
string value is rewritten with `toPosixPath` exactly when its key is the
literal `"file"`. String elements of arrays are not themselves rewritten
(in the source, `posixify` applied to a string hits neither the `Array.isArray`
nor the `typeof data === 'object'` branch and returns without changes). -/
def posixify : Json → Json
  | .obj kvs => .obj (posixifyPairs kvs)
  | .arr xs => .arr (posixifyList xs)
  | j => j

/-- Embedding of `data.forEach(posixify)` for an array (source line 173). -/
def posixifyList : List Json → List Json
  | [] => []
  | x :: xs => posixify x :: posixifyList xs

/-- Embedding of the `Object.entries(data).forEach` loop (source lines 175-183). -/
def posixifyPairs : List (String × Json) → List (String × Json)
  | [] => []
  | (k, Json.str s) :: rest =>
      (k, Json.str (if k = "file" then toPosixPath s else s)) :: posixifyPairs rest
  | (k, v) :: rest => (k, posixify v) :: posixifyPairs rest

end

/-- Value transformation `posixify` applies to the value stored under key `k`
of an object (used to state the lookup lemma below). -/
def posixifyValueAt (k : String) : Json → Json
  | .str s => if k = "file" then Json.str (toPosixPath s) else Json.str s
  | v => posixify v


/-- Step of an access path into a `Json` tree: an object key or an array index. -/
inductive JStep where
  | key (k : String)
  | idx (n : Nat)

/-- Follow an access path into a `Json` tree. -/
def getAt : Json → List JStep → Option Json
  | j, [] => some j
  | .obj kvs, .key k :: p =>
      match lookupJson kvs k with
      | some v => getAt v p
      | none => none
  | .arr xs, .idx n :: p =>
      match xs.get? n with
      | some v => getAt v p
      | none => none
  | _, _ => none


/-! ## Statically-shaped data of the analyzer core -/

/-- Parsed `package.json` manifest as read by `checkForMatchCompatibility`
(source lines 256-260): declared name, declared version, and the
two dependency maps (JS objects, modelled as association lists). -/
structure Manifest where
  name : String
  version : String
  dependencies : List (String × String)
  devDependencies : List (String × String)

/-- Return value of `checkForMatchCompatibility`: `{compatible, reason?}`. -/
structure CompatResult where
  compatible : Bool
  reason : Option String
deriving DecidableEq

/-- Project metadata `{name, version, path}` as produced by
`InputDataService.getProjectMeta` (spec: Project Metadata Provider).
The `path` key can be deleted by the formatter, hence `Option`. -/
structure ProjectMeta where
  name : String
  version : String
  path : Option String
deriving DecidableEq

/-- File-gathering configuration `{extensions, allowlist}` passed to the
File Gatherer (`InputDataService.createDataObject`). -/
structure GatherConfig where
  extensions : List String
  allowlist : List String
deriving DecidableEq

/-- The `meta` envelope of a JSON-serialized analyzer result: the object whose
`analyzerMeta` property is read by `unwindJsonResult` (source line 282). -/
structure MetaBox (μ : Type) where
  analyzerMeta : Option μ

/-- A possibly-wrapped analyzer result, as supplied via
`targetProjectResult` / `referenceProjectResult` or returned by the Cache
Store: it has a `queryOutput`, possibly a direct `analyzerMeta`
(canonical in-memory shape), and possibly a `meta` envelope (serialized
shape). Absent JS properties are `none`. -/
structure Wrapped (μ : Type) where
  queryOutput : Json
  analyzerMeta : Option μ
  meta : Option (MetaBox μ)

/-- The fields of a provided result's `analyzerMeta` that `_prepare`
reads (source lines 331 and 337 read only `.targetProject`);
`referenceProject` is carried for shape fidelity. -/
structure ProvMeta where
  targetProject : Option ProjectMeta
  referenceProject : Option ProjectMeta

/-- The analyzer configuration (spec §3 `AnalyzerConfig`): caller config merged
over the defaults `{targetProjectPath: null, referenceProjectPath: null}`
(source lines 433-437). `skipCheckMatchCompatibility` unset is `false`. -/
structure AnalyzerConfig where
  targetProjectPath : Option String
  referenceProjectPath : Option String
  skipCheckMatchCompatibility : Bool
  gatherFilesConfig : GatherConfig
  gatherFilesConfigReference : Option GatherConfig
  targetProjectResult : Option (Wrapped ProvMeta)
  referenceProjectResult : Option (Wrapped ProvMeta)

/-- The `analyzerMeta` object built by `ensureAnalyzerResultFormat`
(source lines 208-217): `{name, requiredAst, identifier, targetProject?,
referenceProject?, configuration}`, plus the `__fromCache` property that
`_getCachedAnalyzerResult` sets (absent is modelled as `false`). -/
structure ResultMeta where
  name : String
  requiredAst : String
  identifier : String
  targetProject : Option ProjectMeta
  referenceProject : Option ProjectMeta
  configuration : AnalyzerConfig
  fromCache : Bool

/-- An `AnalyzerQueryResult` as returned by `execute`: `queryOutput` plus
`analyzerMeta`. The meta is an `Option` because the cache-hit path carries
whatever object the store returned (the code throws before returning if it
is absent). -/
structure ExecResult where
  queryOutput : Json
  analyzerMeta : Option ResultMeta

/-- Opaque handle for the in-memory project input data returned by the File
Gatherer (`InputDataService.createDataObject`); its contents are external to
the core. -/
structure ProjectData where
  pdId : Nat
deriving DecidableEq

/-- The `context` property of an AST entry (source line 153 reads `.code`). -/
structure AstContext where
  code : String

/-- One entry of the AST-annotated project data traversed by
`analyzePerAstEntry` (source line 153): `{file, ast, context}`. -/
structure AstEntry where
  file : String
  ast : Json
  context : AstContext

/-- The `project` object of AST-annotated project data (line 154 reads `.path`). -/
structure ProjectRef where
  path : String

/-- AST-annotated project data, as produced by
`QueryService.addAstToProjectsData` (the AST Provider). -/
structure AstProjectData where
  project : ProjectRef
  entries : List AstEntry

/-- The per-file context handed to the analysis callback
(source line 155): `{code, relativePath, projectData}`. -/
structure TraverseContext where
  code : String
  relativePath : String
  projectData : AstProjectData

/-- The value destructured from the analysis callback's return
(source line 157): `{result, meta}`. `result` is the array whose length
decides filtering (line 160). -/
structure AnalysisOut where
  result : List Json
  meta : Json

/-- One entry pushed by the `analyzePerAstEntry` loop (source line 158). -/
structure OutputEntry where
  file : String
  meta : Json
  result : List Json

/-- A thrown JavaScript error; the only kind this core can throw by itself is
a `TypeError` from a property access on `undefined`. -/
inductive JsErr where
  | typeError
deriving DecidableEq

/-- External collaborators of the analyzer core. Every field models a function
the code under `src/` calls but does not define:
`win32` is `process.platform === 'win32'` (line 242);
`getProjectMeta` is `InputDataService.getProjectMeta` (lines 329, 335);
`readManifest` is the `fs.readFileSync` + `JSON.parse` of the `package.json`
under a directory (lines 257-260), total because the claims quantify over
readable manifests;
`semverSatisfies` is `semver.satisfies` from the external semver package
(line 270);
`getCachedResult` is `ReportService.getCachedResult` (line 467), the Cache
Store lookup;
`createDataObject` is `InputDataService.createDataObject` (lines 388, 395),
the File Gatherer;
`addAstToProjectsData` is `QueryService.addAstToProjectsData` (line 426),
the AST Provider;
`relativeFromRoot` is `getFilePathRelativeFromRoot` (line 154). -/
structure Env where
  win32 : Bool
  getProjectMeta : Option String → ProjectMeta
  readManifest : Option String → Manifest
  semverSatisfies : String → String → Bool
  getCachedResult : String → String → Option (Wrapped ResultMeta)
  createDataObject : List (Option String) → GatherConfig → ProjectData
  addAstToProjectsData : Option ProjectData → String → List AstProjectData
  relativeFromRoot : String → String → String

/-- JS truthiness of a possibly-absent string (empty string is falsy). -/
def truthyOpt : Option String → Bool
  | none => false
  | some s => s != ""

/-! ## Compatibility Checker -/

/-- Embedding of `checkForMatchCompatibility` (source lines 256-274): reads the
reference and target `package.json` manifests, concatenates the target's
`devDependencies` and `dependencies` entries (in that order, as the source
spreads them), finds the first entry whose name equals the reference's
declared name, and gates on `semver.satisfies(referencePkg.version, range)`. -/
def checkForMatchCompatibility (env : Env) (referencePath targetPath : Option String) :
    CompatResult :=
  let referencePkg := env.readManifest referencePath
  let targetPkg := env.readManifest targetPath
  let allTargetDeps := targetPkg.devDependencies ++ targetPkg.dependencies
  match allTargetDeps.find? (fun entry => referencePkg.name == entry.1) with
  | none => { compatible := false, reason := some "no-dependency" }
  | some importEntry =>
    if !(env.semverSatisfies referencePkg.version importEntry.2) then
      { compatible := false, reason := some "no-matched-version" }
    else
      { compatible := true, reason := none }

/-! ## Traversal -/

/-- Embedding of the `for..of` loop of `analyzePerAstEntry`
(source lines 152-159): each entry is processed in order, building
`{file: relativePath, meta, result}` from the analysis callback's output. -/
def analyzeEntriesLoop (env : Env) (pd : AstProjectData)
    (astAnalysis : Json → TraverseContext → AnalysisOut) :
    List AstEntry → List OutputEntry
  | [] => []
  | e :: rest =>
    let relativePath := env.relativeFromRoot e.file pd.project.path
    let context : TraverseContext :=
      { code := e.context.code, relativePath := relativePath, projectData := pd }
    let out := astAnalysis e.ast context
    { file := relativePath, meta := out.meta, result := out.result }
      :: analyzeEntriesLoop env pd astAnalysis rest

/-- Embedding of `analyzePerAstEntry` (source lines 151-162): run the loop over
`projectData.entries`, then keep the entries whose `result` has non-zero
length (`entries.filter(({ result }) => Boolean(result.length))`). -/
def analyzePerAstEntry (env : Env) (pd : AstProjectData)
    (astAnalysis : Json → TraverseContext → AnalysisOut) : List OutputEntry :=
  (analyzeEntriesLoop env pd astAnalysis pd.entries).filter
    (fun e => e.result.length != 0)

/-! ## Result Normalizer -/

/-- Embedding of `delete projectOutput.project.path` (source line 237) applied
to a `project` value: removes the `path` property when the value is an object
(a JS `delete` on a primitive is a no-op, and the source skips falsy values,
which are also unchanged here). -/
def deletePathKey : Json → Json
  | .obj kvs => .obj (kvs.filter (fun kv => kv.1 != "path"))
  | j => j

/-- Embedding of the body of the `queryOutput.forEach` loop
(source lines 235-239): when an entry has a `project` property, strip
`path` from it. -/
def stripEntryProjectPath : Json → Json
  | .obj kvs => .obj (kvs.map (fun kv =>
      if kv.1 = "project" then (kv.1, deletePathKey kv.2) else kv))
  | j => j

/-- Embedding of the `Array.isArray(aResult.queryOutput)` block
(source lines 234-240). -/
def stripQueryOutputProjectPaths : Json → Json
  | .arr xs => .arr (xs.map stripEntryProjectPath)
  | j => j

/-- Effect of `posixify(aResult)` on a provided result embedded in the
configuration: its only `Json`-valued part is its `queryOutput`; its
structured string fields sit under the keys `name`, `version` and `path`,
which `posixify` leaves unchanged. -/
def posixifyWrappedProv (w : Wrapped ProvMeta) : Wrapped ProvMeta :=
  { w with queryOutput := posixify w.queryOutput }

/-- Effect of `posixify(aResult)` on the embedded configuration: its string
fields sit under keys other than `file` (`targetProjectPath`,
`referenceProjectPath`, and the string arrays of the gather configs, whose
elements `posixify` does not rewrite), so only the embedded provided results
can change. -/
def posixifyConfig (c : AnalyzerConfig) : AnalyzerConfig :=
  { c with
    targetProjectResult := c.targetProjectResult.map posixifyWrappedProv
    referenceProjectResult := c.referenceProjectResult.map posixifyWrappedProv }

/-- Effect of `posixify(aResult)` on the `analyzerMeta` object: `name`,
`requiredAst` and `identifier` are strings under keys other than `file`, and
the project metas hold strings under `name`/`version`/`path` only. -/
def posixifyResultMeta (m : ResultMeta) : ResultMeta :=
  { m with configuration := posixifyConfig m.configuration }

/-- Embedding of `posixify(aResult)` (source line 243) on the structured
result value. -/
def posixifyExecResult (r : ExecResult) : ExecResult :=
  { queryOutput := posixify r.queryOutput
    analyzerMeta := r.analyzerMeta.map posixifyResultMeta }

/-- Embedding of the configuration deletions of `ensureAnalyzerResultFormat`:
delete
`referenceProjectPath` and `targetProjectPath` from the configuration
(source lines 223-224), then drop `referenceProjectResult` if present, else
drop `targetProjectResult` (lines 226-232). -/
def sanitizeConfig (configuration : AnalyzerConfig) : AnalyzerConfig :=
  let cfg1 := { configuration with
    targetProjectPath := none, referenceProjectPath := none }
  if cfg1.referenceProjectResult.isSome then
    { cfg1 with referenceProjectResult := none }
  else if cfg1.targetProjectResult.isSome then
    { cfg1 with targetProjectResult := none }
  else cfg1

/-- Continuation of `ensureAnalyzerResultFormat` (source lines 195-240, see
`sanitizeConfig` for lines 223-232): copy the project metas with their `path`
removed (lines 198-205), build `analyzerMeta` (lines 208-217) around the
sanitized configuration, and strip `path` from `project` objects of an array
`queryOutput` (lines 234-240). The source performs the deletions by mutating
the constructed object; this builds the final value directly. -/
def formatCore (queryOutput : Json) (configuration : AnalyzerConfig)
    (nm ra : String) (tMeta rMeta : Option ProjectMeta) (ident : String) :
    ExecResult :=
  let targetProject := tMeta.map (fun m => { m with path := none })
  let referenceProject := rMeta.map (fun m => { m with path := none })
  { queryOutput := stripQueryOutputProjectPaths queryOutput
    analyzerMeta := some
      { name := nm, requiredAst := ra, identifier := ident,
        targetProject := targetProject, referenceProject := referenceProject,
        configuration := sanitizeConfig configuration, fromCache := false } }

/-- Embedding of `ensureAnalyzerResultFormat` including the
`process.platform === 'win32'` posixify step (source lines 242-244). -/
def ensureAnalyzerResultFormat (win32 : Bool) (queryOutput : Json)
    (configuration : AnalyzerConfig) (nm ra : String)
    (tMeta rMeta : Option ProjectMeta) (ident : String) : ExecResult :=
  if win32 then
    posixifyExecResult (formatCore queryOutput configuration nm ra tMeta rMeta ident)
  else
    formatCore queryOutput configuration nm ra tMeta rMeta ident

/-! ## Identifier Service (spec-modelled) -/

mutual

/-- Deterministic rendering of a `Json` value, used by the spec-modelled
identifier encoding. -/
def Json.encode : Json → String
  | .null => "null"
  | .bool b => toString b
  | .num n => toString n
  | .str s => "s:" ++ s
  | .arr xs => "a(" ++ Json.encodeList xs ++ ")"
  | .obj kvs => "o(" ++ Json.encodePairs kvs ++ ")"

/-- Rendering of a `Json` array's elements. -/
def Json.encodeList : List Json → String
  | [] => ""
  | x :: xs => Json.encode x ++ "," ++ Json.encodeList xs

/-- Rendering of a `Json` object's properties. -/
def Json.encodePairs : List (String × Json) → String
  | [] => ""
  | (k, v) :: xs => k ++ ":" ++ Json.encode v ++ "," ++ Json.encodePairs xs

end

/-- Render an optional component of the identifier seed. -/
def encodeOpt (f : α → String) : Option α → String
  | none => "-"
  | some a => "+" ++ f a

/-- Render a project meta without its `path` (filesystem paths are excluded
from the identifier). -/
def encodeMetaNoPath (m : ProjectMeta) : String :=
  m.name ++ "@" ++ m.version

/-- Render a provided result's `analyzerMeta`, excluding the `path` fields of
the embedded project metas. -/
def encodeProvMeta (m : ProvMeta) : String :=
  encodeOpt encodeMetaNoPath m.targetProject ++ ";"
    ++ encodeOpt encodeMetaNoPath m.referenceProject

/-- Render a gather configuration. -/
def encodeGather (g : GatherConfig) : String :=
  String.intercalate "," g.extensions ++ ";" ++ String.intercalate "," g.allowlist

/-- Render a provided (possibly wrapped) result, path-free. -/
def encodeWrapped (w : Wrapped ProvMeta) : String :=
  Json.encode w.queryOutput ++ ";" ++ encodeOpt encodeProvMeta w.analyzerMeta ++ ";"
    ++ encodeOpt (fun mb => encodeOpt encodeProvMeta mb.analyzerMeta) w.meta

/-- Render an analyzer configuration, excluding its filesystem path fields
(`targetProjectPath`, `referenceProjectPath`, and the `path` entries of
project metas embedded in provided results). -/
def encodeCfg (c : AnalyzerConfig) : String :=
  toString c.skipCheckMatchCompatibility ++ ";" ++ encodeGather c.gatherFilesConfig
    ++ ";" ++ encodeOpt encodeGather c.gatherFilesConfigReference
    ++ ";" ++ encodeOpt encodeWrapped c.targetProjectResult
    ++ ";" ++ encodeOpt encodeWrapped c.referenceProjectResult

/-- Modelled from the spec: `ReportService.createIdentifier` (called at source
lines 343-347) lives in `src/program/core/ReportService.js`, which is not part
of the sources under `src/`. The spec (§3, §4.5) requires "a deterministic
string, pure function of `{targetProject, referenceProject, analyzerConfig}`
with all filesystem paths excluded". This definition renders the manifest name
and version of each project (never `path`) together with every configuration
field except the filesystem path fields. -/
def createIdentifier (targetProject referenceProject : Option ProjectMeta)
    (analyzerConfig : AnalyzerConfig) : String :=
  encodeOpt encodeMetaNoPath targetProject ++ "_+_"
    ++ encodeOpt encodeMetaNoPath referenceProject
    ++ "__" ++ encodeCfg analyzerConfig

/-! ## Analyzer lifecycle -/

/-- Embedding of `unwindJsonResult` (source lines 280-284): destructure
`targetOrReferenceProjectResult.meta` — a `TypeError` when `meta` is absent —
and return `{queryOutput, analyzerMeta}` (the new object carries no `meta`
property). -/
def unwindJsonResult (w : Wrapped μ) : Except JsErr (Wrapped μ) :=
  match w.meta with
  | none => .error JsErr.typeError
  | some mb => .ok { queryOutput := w.queryOutput, analyzerMeta := mb.analyzerMeta, meta := none }

/-- The instance fields the `Analyzer` methods set on `this`:
`targetProjectMeta`, `referenceProjectMeta`, `identifier`
(source lines 329-347), and `targetData` / `referenceData`
(source lines 387-399). All start absent/empty. -/
structure AnalyzerState where
  targetProjectMeta : Option ProjectMeta
  referenceProjectMeta : Option ProjectMeta
  identifier : String
  targetData : Option ProjectData
  referenceData : Option ProjectData

namespace Analyzer

/-- Embedding of one field update of `Analyzer.__unwindProvidedResults`
(source lines 312-313 and 315-316): a provided result lacking an
`analyzerMeta` property is replaced by its unwound form (which can throw if
it also lacks `meta`); any other value is left as it is. -/
def unwindField : Option (Wrapped ProvMeta) → Except JsErr (Option (Wrapped ProvMeta))
  | some w =>
    if w.analyzerMeta.isNone then
      match unwindJsonResult w with
      | .error e => .error e
      | .ok u => .ok (some u)
    else .ok (some w)
  | none => .ok none

/-- Embedding of `Analyzer.__unwindProvidedResults` (source lines 311-318):
apply `unwindField` to `cfg.targetProjectResult`, then to
`cfg.referenceProjectResult` (the two mutations touch independent fields). -/
def unwindProvidedResults (cfg : AnalyzerConfig) : Except JsErr AnalyzerConfig :=
  match unwindField cfg.targetProjectResult with
  | .error e => .error e
  | .ok t =>
    match unwindField cfg.referenceProjectResult with
    | .error e => .error e
    | .ok r => .ok { cfg with targetProjectResult := t, referenceProjectResult := r }

/-- Embedding of `_prepare`'s target-meta resolution (source lines 328-332):
from the Project Metadata Provider when no `targetProjectResult` is given,
else from the provided result's `analyzerMeta.targetProject` (a `TypeError`
when that `analyzerMeta` is still absent after unwinding). -/
def resolveTargetMeta (env : Env) (cfgU : AnalyzerConfig) :
    Except JsErr (Option ProjectMeta) :=
  match cfgU.targetProjectResult with
  | none => .ok (some (env.getProjectMeta cfgU.targetProjectPath))
  | some w =>
    match w.analyzerMeta with
    | none => .error JsErr.typeError
    | some am => .ok am.targetProject

/-- Embedding of `_prepare`'s reference-meta resolution (source lines
334-338): from the Project Metadata Provider when a truthy
`referenceProjectPath` is present and no `referenceProjectResult` is given;
else from the provided result's `analyzerMeta.targetProject` when one is
given; else the field stays absent. -/
def resolveReferenceMeta (env : Env) (cfgU : AnalyzerConfig) :
    Except JsErr (Option ProjectMeta) :=
  if truthyOpt cfgU.referenceProjectPath && cfgU.referenceProjectResult.isNone then
    .ok (some (env.getProjectMeta cfgU.referenceProjectPath))
  else
    match cfgU.referenceProjectResult with
    | some w =>
      match w.analyzerMeta with
      | none => .error JsErr.typeError
      | some am => .ok am.targetProject
    | none => .ok none

/-- The metadata-resolution steps of `_prepare` (source lines 328-338), target
side first as in the source. -/
def resolveProjectMetas (env : Env) (cfgU : AnalyzerConfig) :
    Except JsErr (Option ProjectMeta × Option ProjectMeta) :=
  match resolveTargetMeta env cfgU with
  | .error e => .error e
  | .ok tm =>
    match resolveReferenceMeta env cfgU with
    | .error e => .error e
    | .ok rm => .ok (tm, rm)

/-- Embedding of `Analyzer._getCachedAnalyzerResult` (source lines 466-477):
look up the Cache Store; a hit is unwound (`unwindJsonResult`, which throws
when the stored value has no `meta`), then `__fromCache` is set on its
`analyzerMeta` (a `TypeError` when the unwound `analyzerMeta` is absent). -/
def getCachedAnalyzerResult (env : Env) (analyzerName identifier : String) :
    Except JsErr (Option ExecResult) :=
  match env.getCachedResult analyzerName identifier with
  | none => .ok none
  | some cached =>
    match unwindJsonResult cached with
    | .error e => .error e
    | .ok u =>
      match u.analyzerMeta with
      | none => .error JsErr.typeError
      | some am =>
        .ok (some { queryOutput := u.queryOutput
                    analyzerMeta := some { am with fromCache := true } })

/-- Embedding of the tail of `Analyzer._prepare` after the compatibility gate
(source lines 370-401): look up the Cache Store (lines 373-380) and return a
hit as the short-circuit result; on a miss, gather target file data when no
`targetProjectResult` was provided (lines 387-392) and reference file data
when a truthy `referenceProjectPath` is present (lines 394-399), then signal
"no short-circuit". -/
def prepareTail (env : Env) (nm : String) (cfgU : AnalyzerConfig) (st : AnalyzerState) :
    Except JsErr (AnalyzerConfig × AnalyzerState × Option ExecResult) :=
  match getCachedAnalyzerResult env nm st.identifier with
  | .error e => .error e
  | .ok (some cachedResult) => .ok (cfgU, st, some cachedResult)
  | .ok none =>
    let tData := env.createDataObject [cfgU.targetProjectPath] cfgU.gatherFilesConfig
    let rData := env.createDataObject [cfgU.referenceProjectPath]
      (cfgU.gatherFilesConfigReference.getD cfgU.gatherFilesConfig)
    let st := if cfgU.targetProjectResult.isNone then
        { st with targetData := some tData }
      else st
    let st := if truthyOpt cfgU.referenceProjectPath then
        { st with referenceData := some rData }
      else st
    .ok (cfgU, st, none)

/-- Embedding of `Analyzer._prepare` (source lines 324-402). Returns the
mutated (unwound) configuration, the instance state, and the short-circuit
result: `some` when an incompatibility skip-result or a cached result is
returned, `none` when `execute` must proceed to traversal. The steps, in
source order: unwind provided results; resolve project metas; derive the
identifier (lines 343-347); run the Compatibility Checker when a truthy
`referenceProjectPath` is present and `skipCheckMatchCompatibility` is not set
(lines 351-368), returning a formatted `"[<reason>]"` skip-result on failure;
otherwise continue with `prepareTail` above, the embedding of lines 370-401:
look up the Cache Store (lines 373-380); on a miss, gather target file data
when no `targetProjectResult` was provided (lines 387-392) and reference file
data when a truthy `referenceProjectPath` is present (lines 394-399). -/
def prepare (env : Env) (nm ra : String) (cfg : AnalyzerConfig) :
    Except JsErr (AnalyzerConfig × AnalyzerState × Option ExecResult) :=
  match unwindProvidedResults cfg with
  | .error e => .error e
  | .ok cfgU =>
    match resolveProjectMetas env cfgU with
    | .error e => .error e
    | .ok (targetProjectMeta, referenceProjectMeta) =>
      let st : AnalyzerState :=
        { targetProjectMeta := targetProjectMeta
          referenceProjectMeta := referenceProjectMeta
          identifier := createIdentifier targetProjectMeta referenceProjectMeta cfgU
          targetData := none
          referenceData := none }
      if truthyOpt cfgU.referenceProjectPath && !cfgU.skipCheckMatchCompatibility then
        let check := checkForMatchCompatibility env cfgU.referenceProjectPath cfgU.targetProjectPath
        if !check.compatible then
          .ok (cfgU, st,
            some (ensureAnalyzerResultFormat env.win32
              (Json.str ("[" ++ check.reason.getD "undefined" ++ "]")) cfgU nm ra
              st.targetProjectMeta st.referenceProjectMeta st.identifier))
        else
          prepareTail env nm cfgU st
      else
        prepareTail env nm cfgU st

/-- Embedding of `Analyzer._traverse` (source lines 420-428): annotate
`this.targetData` with ASTs of the `babel` dialect and run
`analyzePerAstEntry` on the first project of the result (a `TypeError` when
there is none, from the `.entries` access on `undefined`). -/
def traverse (env : Env) (st : AnalyzerState)
    (astAnalysis : Json → TraverseContext → AnalysisOut) :
    Except JsErr (List OutputEntry) :=
  match (env.addAstToProjectsData st.targetData "babel").head? with
  | none => .error JsErr.typeError
  | some pd => .ok (analyzePerAstEntry env pd astAnalysis)

/-- Embedding of `Analyzer._finalize` (source lines 409-415): format the
query output and return it. The second component records the Cache Store
writes performed by `_finalize`: the source makes none (it only calls
`ensureAnalyzerResultFormat` and logs), so the list is empty. -/
def finalize (win32 : Bool) (nm ra : String) (st : AnalyzerState)
    (queryOutput : Json) (cfg : AnalyzerConfig) :
    ExecResult × List (String × String) :=
  (ensureAnalyzerResultFormat win32 queryOutput cfg nm ra
    st.targetProjectMeta st.referenceProjectMeta st.identifier, [])

/-- Which phases ran during one `execute` call, and the Cache Store writes it
performed (the cache key is `(analyzerName, identifier)`). -/
structure ExecTrace where
  traverseRan : Bool
  finalizeRan : Bool
  cacheWrites : List (String × String)
deriving DecidableEq

/-- Conversion of the traversal output list to the dynamic `Json` it is in JS
when `ensureAnalyzerResultFormat` inspects it with `Array.isArray`. -/
def entriesToJson (entries : List OutputEntry) : Json :=
  .arr (entries.map (fun e =>
    .obj [("file", .str e.file), ("meta", e.meta), ("result", .arr e.result)]))

/-- Embedding of `Analyzer.execute` (source lines 430-456): merge defaults,
run `_prepare`, and return its result when it short-circuits; otherwise run
`_traverse` with the per-file analysis callback and `_finalize` the traversal
output. `nm` is the subclass's `analyzerName`, `ra` its `requiredAst`
(the base getter returns `'babel'`), and `astAnalysis` the per-file analysis
function supplied to `_traverse` (the base class passes a placeholder).
The returned trace records which phases ran and any cache writes. -/
def execute (env : Env) (nm ra : String)
    (astAnalysis : Json → TraverseContext → AnalysisOut)
    (customConfig : AnalyzerConfig) : Except JsErr (ExecResult × ExecTrace) :=
  let cfg := customConfig
  match prepare env nm ra cfg with
  | .error e => .error e
  | .ok (_, _, some analyzerResult) =>
    .ok (analyzerResult, { traverseRan := false, finalizeRan := false, cacheWrites := [] })
  | .ok (cfgU, st, none) =>
    match traverse env st astAnalysis with
    | .error e => .error e
    | .ok queryOutput =>
      let (res, writes) := finalize env.win32 nm ra st (entriesToJson queryOutput) cfgU
      .ok (res, { traverseRan := true, finalizeRan := true, cacheWrites := writes })

end Analyzer

/-! ## Statement helpers: observations, sanitization predicate, path stripping -/

/-- Observed `queryOutput` of an `execute` outcome (`none` when it threw). -/
def execQueryOutput : Except JsErr (ExecResult × Analyzer.ExecTrace) → Option Json
  | .ok (r, _) => some r.queryOutput
  | .error _ => none

/-- Observed `analyzerMeta.__fromCache` of an `execute` outcome: `none` when it
threw, `some none` when the result has no `analyzerMeta`. -/
def execFromCacheFlag : Except JsErr (ExecResult × Analyzer.ExecTrace) → Option (Option Bool)
  | .ok (r, _) => some (r.analyzerMeta.map (fun m => m.fromCache))
  | .error _ => none

/-- Observed `analyzerMeta.identifier` of an `execute` outcome. -/
def execIdentifier : Except JsErr (ExecResult × Analyzer.ExecTrace) → Option (Option String)
  | .ok (r, _) => some (r.analyzerMeta.map (fun m => m.identifier))
  | .error _ => none

/-- Whether the traverse phase ran during an `execute` outcome. -/
def execTraverseRan : Except JsErr (ExecResult × Analyzer.ExecTrace) → Option Bool
  | .ok (_, t) => some t.traverseRan
  | .error _ => none

/-- Whether the finalize phase ran during an `execute` outcome. -/
def execFinalizeRan : Except JsErr (ExecResult × Analyzer.ExecTrace) → Option Bool
  | .ok (_, t) => some t.finalizeRan
  | .error _ => none

/-- The Cache Store writes performed during an `execute` outcome. -/
def execCacheWrites : Except JsErr (ExecResult × Analyzer.ExecTrace) → List (String × String)
  | .ok (_, t) => t.cacheWrites
  | .error _ => []

/-- Whether `_prepare` short-circuited (`none` when it threw). -/
def prepareShortCircuited :
    Except JsErr (AnalyzerConfig × AnalyzerState × Option ExecResult) → Option Bool
  | .ok (_, _, o) => some o.isSome
  | .error _ => none

/-- The `targetData` gathered by `_prepare` (`none` when it threw). -/
def prepareTargetData :
    Except JsErr (AnalyzerConfig × AnalyzerState × Option ExecResult) →
      Option (Option ProjectData)
  | .ok (_, st, _) => some st.targetData
  | .error _ => none

/-- The `referenceData` gathered by `_prepare` (`none` when it threw). -/
def prepareReferenceData :
    Except JsErr (AnalyzerConfig × AnalyzerState × Option ExecResult) →
      Option (Option ProjectData)
  | .ok (_, st, _) => some st.referenceData
  | .error _ => none

/-- A `project` value carries no `path` property (trivially true for
non-objects). -/
def projectPathAbsent : Json → Prop
  | .obj kvs => lookupJson kvs "path" = none
  | _ => True

/-- A `queryOutput` entry's nested `project` object, if any, carries no
`path` property. -/
def entryProjectClean : Json → Prop
  | .obj kvs => ∀ v, lookupJson kvs "project" = some v → projectPathAbsent v
  | _ => True

/-- When the `queryOutput` is an array, each entry is clean in the sense of
`entryProjectClean`. -/
def queryOutputClean : Json → Prop
  | .arr xs => ∀ e ∈ xs, entryProjectClean e
  | _ => True

/-- The sanitization invariant on an `analyzerMeta` object (spec §3): its
`configuration` contains neither `targetProjectPath` nor
`referenceProjectPath` nor both of `targetProjectResult` /
`referenceProjectResult`, and the copied project metas carry no `path`. -/
def metaClean (m : ResultMeta) : Prop :=
  m.configuration.targetProjectPath = none ∧
  m.configuration.referenceProjectPath = none ∧
  (m.configuration.targetProjectResult = none ∨
    m.configuration.referenceProjectResult = none) ∧
  (∀ pm ∈ m.targetProject, pm.path = none) ∧
  (∀ pm ∈ m.referenceProject, pm.path = none)

/-- The sanitization invariant on a returned `AnalyzerQueryResult` (spec §3
and §8 "Sanitization"). -/
def SanitizedResult (r : ExecResult) : Prop :=
  (∀ m ∈ r.analyzerMeta, metaClean m) ∧ queryOutputClean r.queryOutput

/-- Contract on the external Cache Store (spec §6: entries are previously
persisted `AnalyzerQueryResult`s, which §4.4 sanitizes before they are
written): every stored value that `_getCachedAnalyzerResult` can successfully
unwind yields a sanitized result. -/
def CacheStoreSanitized (env : Env) : Prop :=
  ∀ n i w, env.getCachedResult n i = some w →
    queryOutputClean w.queryOutput ∧
    ∀ mb ∈ w.meta, ∀ am ∈ mb.analyzerMeta, metaClean am

/-- A provided result that `_prepare` can fully consume without a `TypeError`:
either already unwound (`analyzerMeta` present) or wrapped with a `meta`
envelope whose `analyzerMeta` is present. -/
def okProvided : Option (Wrapped ProvMeta) → Prop
  | none => True
  | some w =>
    match w.analyzerMeta with
    | some _ => True
    | none => ∃ mb, w.meta = some mb ∧ mb.analyzerMeta.isSome

/-- After unwinding, a consumable provided result has its `analyzerMeta`
present. -/
def okResolved : Option (Wrapped ProvMeta) → Prop
  | none => True
  | some w => w.analyzerMeta.isSome

/-- Processing of one AST entry as performed by the body of the
`analyzePerAstEntry` loop (source lines 153-158), named so theorems can state
what the loop computes. -/
def processEntry (env : Env) (pd : AstProjectData)
    (astAnalysis : Json → TraverseContext → AnalysisOut) (e : AstEntry) :
    OutputEntry :=
  let relativePath := env.relativeFromRoot e.file pd.project.path
  let out := astAnalysis e.ast
    { code := e.context.code, relativePath := relativePath, projectData := pd }
  { file := relativePath, meta := out.meta, result := out.result }

/-- Remove the machine-specific `path` from a project meta. -/
def stripMetaPath (m : ProjectMeta) : ProjectMeta :=
  { m with path := none }

/-- Remove the machine-specific paths from a provided result's meta. -/
def stripProvMetaPaths (m : ProvMeta) : ProvMeta :=
  { targetProject := m.targetProject.map stripMetaPath
    referenceProject := m.referenceProject.map stripMetaPath }

/-- Remove the machine-specific paths from a provided result. -/
def stripWrappedPaths (w : Wrapped ProvMeta) : Wrapped ProvMeta :=
  { queryOutput := w.queryOutput
    analyzerMeta := w.analyzerMeta.map stripProvMetaPaths
    meta := w.meta.map (fun mb =>
      { analyzerMeta := mb.analyzerMeta.map stripProvMetaPaths }) }

/-- Remove every filesystem path from an analyzer configuration: the two
project path fields and the `path` entries of project metas embedded in
provided results. Two configurations are "equal up to absolute directory
locations" when their images under this map coincide. -/
def stripCfgPaths (c : AnalyzerConfig) : AnalyzerConfig :=
  { c with
    targetProjectPath := none
    referenceProjectPath := none
    targetProjectResult := c.targetProjectResult.map stripWrappedPaths
    referenceProjectResult := c.referenceProjectResult.map stripWrappedPaths }

/-! ## Concrete fixtures for witnesses and counterexamples -/

/-- A small gather configuration. -/
def gatherC : GatherConfig :=
  { extensions := [".js"], allowlist := ["!coverage", "!test"] }

/-- Reference manifest of the spec §8 example: name `dep-a`, version `1.2.0`. -/
def refManifestA : Manifest :=
  { name := "dep-a", version := "1.2.0", dependencies := [], devDependencies := [] }

/-- Reference manifest with the incompatible version `2.0.0`. -/
def refManifestA2 : Manifest :=
  { name := "dep-a", version := "2.0.0", dependencies := [], devDependencies := [] }

/-- Reference manifest with the undeclared name `dep-b`. -/
def refManifestB : Manifest :=
  { name := "dep-b", version := "1.2.0", dependencies := [], devDependencies := [] }

/-- Target manifest declaring the dependency `dep-a: ^1.0.0`. -/
def tgtManifest : Manifest :=
  { name := "tgt-project", version := "0.1.0",
    dependencies := [("dep-a", "^1.0.0")], devDependencies := [] }

/-- A concrete environment: non-Windows platform, manifests as above keyed on
the reference path, a toy semver oracle accepting exactly `1.2.0` against
`^1.0.0`, an empty Cache Store, and trivial gatherer/AST collaborators. -/
def envBase : Env :=
  { win32 := false
    getProjectMeta := fun _ =>
      { name := "tgt-project", version := "0.1.0", path := some "/work/tgt" }
    readManifest := fun p =>
      if p = some "/work/ref" then refManifestA
      else if p = some "/work/ref2" then refManifestA2
      else if p = some "/work/refB" then refManifestB
      else tgtManifest
    semverSatisfies := fun v r => v == "1.2.0" && r == "^1.0.0"
    getCachedResult := fun _ _ => none
    createDataObject := fun _ _ => { pdId := 7 }
    addAstToProjectsData := fun _ _ =>
      [{ project := { path := "/work/tgt" }, entries := [] }]
    relativeFromRoot := fun f _ => f }

/-- A basic configuration: target only, no provided results. -/
def cfgBase : AnalyzerConfig :=
  { targetProjectPath := some "/work/tgt"
    referenceProjectPath := none
    skipCheckMatchCompatibility := false
    gatherFilesConfig := gatherC
    gatherFilesConfigReference := none
    targetProjectResult := none
    referenceProjectResult := none }

/-- The placeholder per-file analysis used in examples (empty result). -/
def astNoop : Json → TraverseContext → AnalysisOut :=
  fun _ _ => { result := [], meta := Json.null }

/-- Configuration with a reference project, for the compatibility-gate
scenarios (the reference path selects `refManifestA` in `envBase`). -/
def cfgWithRef : AnalyzerConfig :=
  { cfgBase with referenceProjectPath := some "/work/ref" }

/-- Same as `cfgWithRef` but pointing at the version-incompatible reference. -/
def cfgWithRef2 : AnalyzerConfig :=
  { cfgBase with referenceProjectPath := some "/work/ref2" }

/-- An already-unwound provided target result (its `analyzerMeta` is present). -/
def providedTargetResult : Wrapped ProvMeta :=
  { queryOutput := Json.arr []
    analyzerMeta := some
      { targetProject := some { name := "tgt-project", version := "0.1.0",
                                path := some "/elsewhere/tgt" }
        referenceProject := none }
    meta := none }

/-- Configuration supplying an already-unwound `targetProjectResult`, used to
show `_prepare` then skips gathering target file data. -/
def cfgProvidedTarget : AnalyzerConfig :=
  { cfgBase with targetProjectResult := some providedTargetResult }

/-- A wrapped provided result lacking both `analyzerMeta` and `meta`, which
makes `unwindJsonResult` throw. -/
def brokenWrapped : Wrapped ProvMeta :=
  { queryOutput := Json.arr [], analyzerMeta := none, meta := none }

/-- A sanitized analyzer meta used to populate Cache Store fixtures. -/
def storedMeta : ResultMeta :=
  { name := "match-x", requiredAst := "babel", identifier := "stored-id",
    targetProject := some { name := "tgt-project", version := "0.1.0", path := none },
    referenceProject := none,
    configuration := stripCfgPaths cfgBase,
    fromCache := false }

/-- A Cache Store entry in the wrapped (serialized) shape holding
`storedMeta` and a recognizable `queryOutput`. -/
def storedEntry : Wrapped ResultMeta :=
  { queryOutput := Json.arr [Json.obj [("file", Json.str "a.js")]]
    analyzerMeta := none
    meta := some { analyzerMeta := some storedMeta } }

/-- `envBase` with the Cache Store primed to return `storedEntry` for every
key, modelling a store populated by an external writer. -/
def envPrimed : Env :=
  { envBase with getCachedResult := fun _ _ => some storedEntry }

/-- An analyzer state used in closed statements: the state `_prepare` computes
for `envBase` / `cfgBase` (target meta resolved, no reference, target file
data gathered). -/
def stBase : AnalyzerState :=
  { targetProjectMeta := some { name := "tgt-project", version := "0.1.0",
                                path := some "/work/tgt" }
    referenceProjectMeta := none
    identifier := createIdentifier
      (some { name := "tgt-project", version := "0.1.0", path := some "/work/tgt" })
      none cfgBase
    targetData := some { pdId := 7 }
    referenceData := none }

/-- The result `execute` produces for `envBase` / `cfgBase` with the no-op
analysis (empty traversal output, formatted on a forward-slash platform). -/
def resBase : ExecResult :=
  ensureAnalyzerResultFormat false (Analyzer.entriesToJson []) cfgBase
    "match-x" "babel" stBase.targetProjectMeta stBase.referenceProjectMeta
    stBase.identifier

/-- A second environment modelling the same logical project checked out at a
different absolute location. -/
def envBase2 : Env :=
  { envBase with getProjectMeta := fun _ =>
      { name := "tgt-project", version := "0.1.0", path := some "/other/tgt" } }

/-- `cfgBase` relocated to the other checkout directory. -/
def cfgBase2 : AnalyzerConfig :=
  { cfgBase with targetProjectPath := some "/other/tgt" }

/-- The state `_prepare` computes for `envBase2` / `cfgBase2`. -/
def stBase2 : AnalyzerState :=
  { targetProjectMeta := some { name := "tgt-project", version := "0.1.0",
                                path := some "/other/tgt" }
    referenceProjectMeta := none
    identifier := createIdentifier
      (some { name := "tgt-project", version := "0.1.0", path := some "/other/tgt" })
      none cfgBase2
    targetData := some { pdId := 7 }
    referenceData := none }

/-- Configuration whose `targetProjectResult` is the broken wrapped value. -/
def cfgBrokenTarget : AnalyzerConfig :=
  { cfgBase with targetProjectResult := some brokenWrapped }

/-- A nested value with a `file` key and an `other` key, used to witness the
path-normalization behavior. -/
def jC8 : Json :=
  Json.obj [("deep", Json.obj
    [("file", Json.str "a\\b\\c.js"), ("other", Json.str "a\\b")])]

/-! ## Lemmas about posixify and Json access -/

theorem lookupJson_posixifyPairs (kvs : List (String × Json)) (k : String) :
    lookupJson (posixifyPairs kvs) k = (lookupJson kvs k).map (posixifyValueAt k) := by
  induction kvs with
  | nil => simp [posixifyPairs, lookupJson]
  | cons hd tl ih =>
    obtain ⟨k', v⟩ := hd
    cases v with
    | str s =>
      rcases eq_or_ne k' k with hk | hk
      · subst hk
        by_cases hf : k' = "file" <;>
          simp [posixifyPairs, lookupJson, hf, posixifyValueAt]
      · by_cases hf : k' = "file"
        · subst hf
          simp [posixifyPairs, lookupJson, hk, posixifyValueAt, ih]
        · simp [posixifyPairs, lookupJson, hk, hf, posixifyValueAt, ih]
    | null => by_cases hk : k' = k <;> simp [posixifyPairs, lookupJson, hk, posixifyValueAt, ih]
    | bool b => by_cases hk : k' = k <;> simp [posixifyPairs, lookupJson, hk, posixifyValueAt, ih]
    | num n => by_cases hk : k' = k <;> simp [posixifyPairs, lookupJson, hk, posixifyValueAt, ih]
    | arr xs => by_cases hk : k' = k <;> simp [posixifyPairs, lookupJson, hk, posixifyValueAt, ih]
    | obj kvs' => by_cases hk : k' = k <;> simp [posixifyPairs, lookupJson, hk, posixifyValueAt, ih]

theorem getAt_posixifyList (xs : List Json) (n : Nat) :
    (posixifyList xs).get? n = (xs.get? n).map posixify := by
  induction xs generalizing n with
  | nil => simp [posixifyList]
  | cons hd tl ih =>
    cases n with
    | zero => simp [posixifyList]
    | succ m => simpa [posixifyList] using ih m

theorem getAt_posixify_key (p : List JStep) :
    ∀ (j : Json) (k s : String),
      getAt j (p ++ [JStep.key k]) = some (Json.str s) →
      getAt (posixify j) (p ++ [JStep.key k]) =
        some (Json.str (if k = "file" then toPosixPath s else s)) := by
  induction p with
  | nil =>
    intro j k s h
    cases j with
    | obj kvs =>
      simp only [List.nil_append, getAt] at h ⊢
      rcases hv : lookupJson kvs k with _ | v
      · rw [hv] at h; simp [getAt] at h
      · rw [hv] at h
        simp only [getAt] at h
        obtain rfl : v = Json.str s := by injection h
        simp only [posixify, lookupJson_posixifyPairs, hv, Option.map_some', posixifyValueAt, getAt]
        by_cases hf : k = "file" <;> simp [hf]
    | null => simp [getAt] at h
    | bool b => simp [getAt] at h
    | num n => simp [getAt] at h
    | str s' => simp [getAt] at h
    | arr xs => simp [getAt] at h
  | cons stp rest ih =>
    intro j k s h
    cases stp with
    | key k' =>
      cases j with
      | obj kvs =>
        simp only [List.cons_append, getAt] at h ⊢
        rcases hv : lookupJson kvs k' with _ | v
        · rw [hv] at h; simp at h
        · rw [hv] at h
          simp only [posixify, lookupJson_posixifyPairs, hv, Option.map_some']
          cases v with
          | str s' =>
            exfalso
            cases rest <;> simp [getAt] at h
          | null => cases rest <;> simp [getAt] at h
          | bool b => cases rest <;> simp [getAt] at h
          | num n => cases rest <;> simp [getAt] at h
          | arr xs => simpa [posixifyValueAt] using ih (Json.arr xs) k s h
          | obj kvs' => simpa [posixifyValueAt] using ih (Json.obj kvs') k s h
      | null => simp [getAt] at h
      | bool b => simp [getAt] at h
      | num n => simp [getAt] at h
      | str s' => simp [getAt] at h
      | arr xs => simp [getAt] at h
    | idx n =>
      cases j with
      | arr xs =>
        simp only [List.cons_append, getAt] at h ⊢
        rcases hv : xs.get? n with _ | v
        · rw [hv] at h; simp at h
        · rw [hv] at h
          simp only [posixify, getAt_posixifyList, hv, Option.map_some']
          exact ih v k s h
      | null => simp [getAt] at h
      | bool b => simp [getAt] at h
      | num n' => simp [getAt] at h
      | str s' => simp [getAt] at h
      | obj kvs => simp [getAt] at h

theorem posixifyList_eq_map (xs : List Json) : posixifyList xs = xs.map posixify := by
  induction xs with
  | nil => simp [posixifyList]
  | cons hd tl ih => simp [posixifyList, ih]

/-! ## Lemmas about the Result Normalizer -/

theorem lookupJson_map_project (kvs : List (String × Json)) :
    lookupJson (kvs.map (fun kv =>
        if kv.1 = "project" then (kv.1, deletePathKey kv.2) else kv)) "project" =
      (lookupJson kvs "project").map deletePathKey := by
  induction kvs with
  | nil => simp [lookupJson]
  | cons hd tl ih =>
    obtain ⟨k, v⟩ := hd
    rcases eq_or_ne k "project" with hk | hk
    · subst hk
      simp [lookupJson, ih]
    · simp only [List.map_cons]
      rw [if_neg (by simpa using hk)]
      simp [lookupJson, hk, ih]

theorem lookupJson_filter_path (kvs : List (String × Json)) :
    lookupJson (kvs.filter (fun kv => kv.1 != "path")) "path" = none := by
  induction kvs with
  | nil => simp [lookupJson]
  | cons hd tl ih =>
    obtain ⟨k, v⟩ := hd
    by_cases hk : k = "path" <;> simp [lookupJson, hk, ih]

theorem projectPathAbsent_deletePathKey (v : Json) :
    projectPathAbsent (deletePathKey v) := by
  cases v <;> simp [deletePathKey, projectPathAbsent, lookupJson_filter_path]

theorem entryProjectClean_strip (e : Json) :
    entryProjectClean (stripEntryProjectPath e) := by
  cases e with
  | obj kvs =>
    simp only [stripEntryProjectPath, entryProjectClean]
    intro v hv
    rw [lookupJson_map_project] at hv
    rcases Option.map_eq_some'.mp hv with ⟨v', _, rfl⟩
    exact projectPathAbsent_deletePathKey v'
  | null => trivial
  | bool b => trivial
  | num n => trivial
  | str s => trivial
  | arr xs => trivial

theorem queryOutputClean_strip (q : Json) :
    queryOutputClean (stripQueryOutputProjectPaths q) := by
  cases q with
  | arr xs =>
    simp only [stripQueryOutputProjectPaths, queryOutputClean]
    intro e he
    rcases List.mem_map.mp he with ⟨e', _, rfl⟩
    exact entryProjectClean_strip e'
  | null => trivial
  | bool b => trivial
  | num n => trivial
  | str s => trivial
  | obj kvs => trivial

theorem projectPathAbsent_posixify (v : Json) (h : projectPathAbsent v) :
    projectPathAbsent (posixify v) := by
  cases v with
  | obj kvs =>
    simp only [posixify, projectPathAbsent] at h ⊢
    rw [lookupJson_posixifyPairs, h]
    rfl
  | null => trivial
  | bool b => trivial
  | num n => trivial
  | str s => trivial
  | arr xs =>
    simp only [posixify]
    trivial

theorem posixifyValueAt_pathAbsent (k : String) (v : Json)
    (h : projectPathAbsent v) : projectPathAbsent (posixifyValueAt k v) := by
  cases v with
  | str s =>
    simp only [posixifyValueAt]
    split <;> trivial
  | obj kvs => exact projectPathAbsent_posixify _ h
  | null => exact projectPathAbsent_posixify _ h
  | bool b => exact projectPathAbsent_posixify _ h
  | num n => exact projectPathAbsent_posixify _ h
  | arr xs => exact projectPathAbsent_posixify _ h

theorem entryProjectClean_posixify (e : Json) (h : entryProjectClean e) :
    entryProjectClean (posixify e) := by
  cases e with
  | obj kvs =>
    simp only [posixify, entryProjectClean] at h ⊢
    intro v hv
    rw [lookupJson_posixifyPairs] at hv
    rcases Option.map_eq_some'.mp hv with ⟨v', hv', rfl⟩
    exact posixifyValueAt_pathAbsent _ v' (h v' hv')
  | null => trivial
  | bool b => trivial
  | num n => trivial
  | str s => trivial
  | arr xs =>
    simp only [posixify]
    trivial

theorem queryOutputClean_posixify (q : Json) (h : queryOutputClean q) :
    queryOutputClean (posixify q) := by
  cases q with
  | arr xs =>
    simp only [posixify, queryOutputClean] at h ⊢
    rw [posixifyList_eq_map]
    intro e he
    rcases List.mem_map.mp he with ⟨e', he', rfl⟩
    exact entryProjectClean_posixify e' (h e' he')
  | null => trivial
  | bool b => trivial
  | num n => trivial
  | str s => trivial
  | obj kvs =>
    simp only [posixify]
    trivial

theorem metaClean_posixify (m : ResultMeta) (h : metaClean m) :
    metaClean (posixifyResultMeta m) := by
  obtain ⟨h1, h2, h3, h4, h5⟩ := h
  refine ⟨h1, h2, ?_, h4, h5⟩
  rcases h3 with h3 | h3
  · exact Or.inl (by simp [posixifyResultMeta, posixifyConfig, h3])
  · exact Or.inr (by simp [posixifyResultMeta, posixifyConfig, h3])

theorem sanitizeConfig_targetPath (c : AnalyzerConfig) :
    (sanitizeConfig c).targetProjectPath = none := by
  unfold sanitizeConfig
  dsimp only
  split
  · rfl
  · split <;> rfl

theorem sanitizeConfig_refPath (c : AnalyzerConfig) :
    (sanitizeConfig c).referenceProjectPath = none := by
  unfold sanitizeConfig
  dsimp only
  split
  · rfl
  · split <;> rfl

theorem sanitizeConfig_notBoth (c : AnalyzerConfig) :
    (sanitizeConfig c).targetProjectResult = none ∨
      (sanitizeConfig c).referenceProjectResult = none := by
  unfold sanitizeConfig
  dsimp only
  split
  · exact Or.inr rfl
  · split
    · exact Or.inl rfl
    · next h1 =>
      exact Or.inl (Option.not_isSome_iff_eq_none.mp (by simpa using h1))

theorem sanitized_formatCore (q : Json) (cfg : AnalyzerConfig) (nm ra : String)
    (tM rM : Option ProjectMeta) (ident : String) :
    SanitizedResult (formatCore q cfg nm ra tM rM ident) := by
  constructor
  · intro m hm
    rw [Option.mem_def] at hm
    simp only [formatCore, Option.some.injEq] at hm
    subst hm
    refine ⟨sanitizeConfig_targetPath cfg, sanitizeConfig_refPath cfg,
      sanitizeConfig_notBoth cfg, ?_, ?_⟩
    · intro pm hpm
      rcases Option.map_eq_some'.mp (Option.mem_def.mp hpm) with ⟨m', _, rfl⟩
      rfl
    · intro pm hpm
      rcases Option.map_eq_some'.mp (Option.mem_def.mp hpm) with ⟨m', _, rfl⟩
      rfl
  · exact queryOutputClean_strip q

theorem sanitized_format (win32 : Bool) (q : Json) (cfg : AnalyzerConfig)
    (nm ra : String) (tM rM : Option ProjectMeta) (ident : String) :
    SanitizedResult (ensureAnalyzerResultFormat win32 q cfg nm ra tM rM ident) := by
  have hc := sanitized_formatCore q cfg nm ra tM rM ident
  cases win32 with
  | false => simpa [ensureAnalyzerResultFormat] using hc
  | true =>
    obtain ⟨hm, hq⟩ := hc
    unfold ensureAnalyzerResultFormat
    rw [if_pos rfl]
    constructor
    · intro m' hm'
      rw [Option.mem_def] at hm'
      simp only [posixifyExecResult, Option.map_eq_some'] at hm'
      rcases hm' with ⟨m, hmem, rfl⟩
      exact metaClean_posixify m (hm m (Option.mem_def.mpr hmem))
    · exact queryOutputClean_posixify _ hq

/-! ## Inversion lemmas for the analyzer lifecycle -/

theorem unwindField_isNone {o t : Option (Wrapped ProvMeta)}
    (h : Analyzer.unwindField o = Except.ok t) : t.isNone = o.isNone := by
  cases o with
  | none =>
    simp only [Analyzer.unwindField, Except.ok.injEq] at h
    subst h
    rfl
  | some w =>
    by_cases ha : w.analyzerMeta.isNone
    · simp only [Analyzer.unwindField, ha, if_true] at h
      rcases hu : unwindJsonResult w with e | u <;> rw [hu] at h
      · exact Except.noConfusion h
      · injection h with h
        subst h
        rfl
    · simp only [Analyzer.unwindField, ha, if_false] at h
      injection h with h
      subst h
      rfl

theorem unwindField_of_okProvided (o : Option (Wrapped ProvMeta))
    (h : okProvided o) :
    ∃ t, Analyzer.unwindField o = Except.ok t ∧ okResolved t := by
  cases o with
  | none => exact ⟨none, rfl, trivial⟩
  | some w =>
    cases hw : w.analyzerMeta with
    | some am =>
      refine ⟨some w, ?_, ?_⟩
      · simp [Analyzer.unwindField, hw]
      · simp [okResolved, hw]
    | none =>
      simp only [okProvided, hw] at h
      obtain ⟨mb, hm, hs⟩ := h
      refine ⟨some { queryOutput := w.queryOutput,
                     analyzerMeta := mb.analyzerMeta, meta := none }, ?_, ?_⟩
      · simp [Analyzer.unwindField, hw, unwindJsonResult, hm]
      · simpa [okResolved] using hs

theorem unwindProvidedResults_ok_inv {cfg cfgU : AnalyzerConfig}
    (h : Analyzer.unwindProvidedResults cfg = Except.ok cfgU) :
    ∃ t r, Analyzer.unwindField cfg.targetProjectResult = Except.ok t ∧
      Analyzer.unwindField cfg.referenceProjectResult = Except.ok r ∧
      cfgU = { cfg with targetProjectResult := t, referenceProjectResult := r } := by
  unfold Analyzer.unwindProvidedResults at h
  rcases ht : Analyzer.unwindField cfg.targetProjectResult with e | t <;> rw [ht] at h
  · exact Except.noConfusion h
  · rcases hr : Analyzer.unwindField cfg.referenceProjectResult with e | r <;> rw [hr] at h
    · exact Except.noConfusion h
    · injection h with h
      exact ⟨t, r, rfl, rfl, h.symm⟩

theorem unwindProvidedResults_of_okProvided (cfg : AnalyzerConfig)
    (hT : okProvided cfg.targetProjectResult)
    (hR : okProvided cfg.referenceProjectResult) :
    ∃ cfgU, Analyzer.unwindProvidedResults cfg = Except.ok cfgU ∧
      okResolved cfgU.targetProjectResult ∧
      okResolved cfgU.referenceProjectResult := by
  obtain ⟨t, ht, hot⟩ := unwindField_of_okProvided _ hT
  obtain ⟨r, hr, hor⟩ := unwindField_of_okProvided _ hR
  refine ⟨{ cfg with targetProjectResult := t, referenceProjectResult := r }, ?_, hot, hor⟩
  simp [Analyzer.unwindProvidedResults, ht, hr]

theorem resolveTargetMeta_of_okResolved (env : Env) (cfgU : AnalyzerConfig)
    (h : okResolved cfgU.targetProjectResult) :
    ∃ tm, Analyzer.resolveTargetMeta env cfgU = Except.ok tm := by
  unfold Analyzer.resolveTargetMeta
  cases hc : cfgU.targetProjectResult with
  | none => exact ⟨_, rfl⟩
  | some w =>
    simp only [okResolved, hc] at h
    rcases Option.isSome_iff_exists.mp h with ⟨am, ham⟩
    exact ⟨am.targetProject, by simp [ham]⟩

theorem resolveReferenceMeta_of_okResolved (env : Env) (cfgU : AnalyzerConfig)
    (h : okResolved cfgU.referenceProjectResult) :
    ∃ rm, Analyzer.resolveReferenceMeta env cfgU = Except.ok rm := by
  unfold Analyzer.resolveReferenceMeta
  by_cases hc : (truthyOpt cfgU.referenceProjectPath && cfgU.referenceProjectResult.isNone) = true
  · rw [if_pos hc]
    exact ⟨_, rfl⟩
  · rw [if_neg hc]
    cases hr : cfgU.referenceProjectResult with
    | none => exact ⟨none, rfl⟩
    | some w =>
      simp only [okResolved, hr] at h
      rcases Option.isSome_iff_exists.mp h with ⟨am, ham⟩
      exact ⟨am.targetProject, by simp [ham]⟩

theorem resolveProjectMetas_ok_inv {env : Env} {cfgU : AnalyzerConfig}
    {tm rm : Option ProjectMeta}
    (h : Analyzer.resolveProjectMetas env cfgU = Except.ok (tm, rm)) :
    Analyzer.resolveTargetMeta env cfgU = Except.ok tm ∧
    Analyzer.resolveReferenceMeta env cfgU = Except.ok rm := by
  unfold Analyzer.resolveProjectMetas at h
  rcases h1 : Analyzer.resolveTargetMeta env cfgU with e | tm' <;> rw [h1] at h
  · exact Except.noConfusion h
  · rcases h2 : Analyzer.resolveReferenceMeta env cfgU with e | rm' <;> rw [h2] at h
    · exact Except.noConfusion h
    · injection h with h
      injection h with ha hb
      exact ⟨by rw [ha], by rw [hb]⟩

theorem prepareTail_ok_inv {env : Env} {nm : String} {cfgU c : AnalyzerConfig}
    {st0 st : AnalyzerState} {o : Option ExecResult}
    (h : Analyzer.prepareTail env nm cfgU st0 = Except.ok (c, st, o)) :
    c = cfgU ∧ st.targetProjectMeta = st0.targetProjectMeta ∧
      st.referenceProjectMeta = st0.referenceProjectMeta ∧
      st.identifier = st0.identifier := by
  unfold Analyzer.prepareTail at h
  split at h
  · exact Except.noConfusion h
  · injection h with h
    injection h with h1 h
    injection h with h2 h3
    subst h1; subst h2
    exact ⟨rfl, rfl, rfl, rfl⟩
  · dsimp only at h
    split at h <;> split at h <;>
      (injection h with h
       injection h with h1 h
       injection h with h2 h3
       subst h1; subst h2
       exact ⟨rfl, rfl, rfl, rfl⟩)

theorem prepare_ok_inv {env : Env} {nm ra : String} {cfg c : AnalyzerConfig}
    {st : AnalyzerState} {o : Option ExecResult}
    (h : Analyzer.prepare env nm ra cfg = Except.ok (c, st, o)) :
    ∃ tm rm, Analyzer.unwindProvidedResults cfg = Except.ok c ∧
      Analyzer.resolveTargetMeta env c = Except.ok tm ∧
      Analyzer.resolveReferenceMeta env c = Except.ok rm ∧
      st.targetProjectMeta = tm ∧ st.referenceProjectMeta = rm ∧
      st.identifier = createIdentifier tm rm c := by
  unfold Analyzer.prepare at h
  split at h
  · exact Except.noConfusion h
  · rename_i cfgU hu
    split at h
    · exact Except.noConfusion h
    · rename_i tm rm hm
      obtain ⟨h1, h2⟩ := resolveProjectMetas_ok_inv hm
      dsimp only at h
      split at h
      · split at h
        · injection h with h
          injection h with hc h
          injection h with hst h3
          subst hc; subst hst
          exact ⟨tm, rm, hu, h1, h2, rfl, rfl, rfl⟩
        · obtain ⟨hc, ht, hr, hi⟩ := prepareTail_ok_inv h
          subst hc
          exact ⟨tm, rm, hu, h1, h2, ht, hr, hi⟩
      · obtain ⟨hc, ht, hr, hi⟩ := prepareTail_ok_inv h
        subst hc
        exact ⟨tm, rm, hu, h1, h2, ht, hr, hi⟩

theorem prepareTail_ok_some_inv {env : Env} {nm : String} {cfgU c : AnalyzerConfig}
    {st0 st : AnalyzerState} {res : ExecResult}
    (h : Analyzer.prepareTail env nm cfgU st0 = Except.ok (c, st, some res)) :
    st = st0 ∧
      Analyzer.getCachedAnalyzerResult env nm st0.identifier = Except.ok (some res) := by
  unfold Analyzer.prepareTail at h
  split at h
  · exact Except.noConfusion h
  · rename_i cached hg
    injection h with h
    injection h with h1 h
    injection h with h2 h3
    injection h3 with h3
    subst h2
    subst h3
    exact ⟨rfl, hg⟩
  · dsimp only at h
    split at h <;> split at h <;>
      (injection h with h
       injection h with h1 h
       injection h with h2 h3
       exact Option.noConfusion h3)

theorem prepare_ok_some_inv {env : Env} {nm ra : String} {cfg c : AnalyzerConfig}
    {st : AnalyzerState} {res : ExecResult}
    (h : Analyzer.prepare env nm ra cfg = Except.ok (c, st, some res)) :
    (∃ s, res = ensureAnalyzerResultFormat env.win32 (Json.str s) c nm ra
        st.targetProjectMeta st.referenceProjectMeta st.identifier) ∨
    Analyzer.getCachedAnalyzerResult env nm st.identifier = Except.ok (some res) := by
  unfold Analyzer.prepare at h
  split at h
  · exact Except.noConfusion h
  · rename_i cfgU hu
    split at h
    · exact Except.noConfusion h
    · rename_i tm rm hm
      dsimp only at h
      split at h
      · split at h
        · injection h with h
          injection h with hc h
          injection h with hst h3
          injection h3 with h3
          subst hc; subst hst; subst h3
          exact Or.inl ⟨_, rfl⟩
        · obtain ⟨hst, hg⟩ := prepareTail_ok_some_inv h
          subst hst
          exact Or.inr hg
      · obtain ⟨hst, hg⟩ := prepareTail_ok_some_inv h
        subst hst
        exact Or.inr hg

theorem getCached_ok_some_inv {env : Env} {n i : String} {r : ExecResult}
    (h : Analyzer.getCachedAnalyzerResult env n i = Except.ok (some r)) :
    ∃ w mb am, env.getCachedResult n i = some w ∧ w.meta = some mb ∧
      mb.analyzerMeta = some am ∧
      r = { queryOutput := w.queryOutput,
            analyzerMeta := some { am with fromCache := true } } := by
  unfold Analyzer.getCachedAnalyzerResult at h
  split at h
  · injection h with h
    exact Option.noConfusion h
  · rename_i cached hw
    split at h
    · exact Except.noConfusion h
    · rename_i u hu
      split at h
      · exact Except.noConfusion h
      · rename_i am ha
        injection h with h
        injection h with h
        subst h
        unfold unwindJsonResult at hu
        split at hu
        · exact Except.noConfusion hu
        · rename_i mb hm
          injection hu with hu
          subst hu
          exact ⟨cached, mb, am, hw, hm, ha, rfl⟩

theorem execute_ok_inv {env : Env} {nm ra : String}
    {f : Json → TraverseContext → AnalysisOut} {cfg : AnalyzerConfig}
    {res : ExecResult} {tr : Analyzer.ExecTrace}
    (h : Analyzer.execute env nm ra f cfg = Except.ok (res, tr)) :
    (∃ c st, Analyzer.prepare env nm ra cfg = Except.ok (c, st, some res) ∧
      tr = { traverseRan := false, finalizeRan := false, cacheWrites := [] }) ∨
    (∃ c st q, Analyzer.prepare env nm ra cfg = Except.ok (c, st, none) ∧
      Analyzer.traverse env st f = Except.ok q ∧
      res = ensureAnalyzerResultFormat env.win32 (Analyzer.entriesToJson q) c nm ra
        st.targetProjectMeta st.referenceProjectMeta st.identifier ∧
      tr = { traverseRan := true, finalizeRan := true, cacheWrites := [] }) := by
  unfold Analyzer.execute at h
  dsimp only at h
  split at h
  · exact Except.noConfusion h
  · rename_i c st r' hp
    injection h with h
    injection h with h1 h2
    subst h1; subst h2
    exact Or.inl ⟨c, st, hp, rfl⟩
  · rename_i c st hp
    split at h
    · exact Except.noConfusion h
    · rename_i q hq
      dsimp only [Analyzer.finalize] at h
      injection h with h
      injection h with h1 h2
      subst h1; subst h2
      exact Or.inr ⟨c, st, q, hp, hq, rfl, rfl⟩

/-! ## Lemmas for identifier path-independence -/

theorem encodeOpt_map_congr {α : Type} (f : α → α) (g : α → String)
    (hfg : ∀ a, g (f a) = g a) (o : Option α) :
    encodeOpt g (o.map f) = encodeOpt g o := by
  cases o <;> simp [encodeOpt, hfg]

theorem encodeProvMeta_strip (m : ProvMeta) :
    encodeProvMeta (stripProvMetaPaths m) = encodeProvMeta m := by
  simp only [encodeProvMeta, stripProvMetaPaths,
    encodeOpt_map_congr stripMetaPath encodeMetaNoPath (fun _ => rfl)]

theorem encodeWrapped_strip (w : Wrapped ProvMeta) :
    encodeWrapped (stripWrappedPaths w) = encodeWrapped w := by
  simp only [encodeWrapped, stripWrappedPaths,
    encodeOpt_map_congr stripProvMetaPaths encodeProvMeta encodeProvMeta_strip]
  congr 1
  exact encodeOpt_map_congr
    (fun mb => { analyzerMeta := mb.analyzerMeta.map stripProvMetaPaths })
    (fun mb => encodeOpt encodeProvMeta mb.analyzerMeta)
    (fun mb => encodeOpt_map_congr stripProvMetaPaths encodeProvMeta
      encodeProvMeta_strip mb.analyzerMeta)
    w.meta

theorem encodeCfg_strip (c : AnalyzerConfig) :
    encodeCfg (stripCfgPaths c) = encodeCfg c := by
  simp only [encodeCfg, stripCfgPaths,
    encodeOpt_map_congr stripWrappedPaths encodeWrapped encodeWrapped_strip]

theorem encodeOptMeta_congr {a b : Option ProjectMeta}
    (h : a.map stripMetaPath = b.map stripMetaPath) :
    encodeOpt encodeMetaNoPath a = encodeOpt encodeMetaNoPath b := by
  have hc := congrArg (encodeOpt encodeMetaNoPath) h
  rwa [encodeOpt_map_congr stripMetaPath encodeMetaNoPath (fun _ => rfl),
       encodeOpt_map_congr stripMetaPath encodeMetaNoPath (fun _ => rfl)] at hc

theorem encodeCfg_congr {c1 c2 : AnalyzerConfig}
    (h : stripCfgPaths c1 = stripCfgPaths c2) : encodeCfg c1 = encodeCfg c2 := by
  have hc := congrArg encodeCfg h
  rwa [encodeCfg_strip, encodeCfg_strip] at hc

theorem createIdentifier_congr {tm1 tm2 rm1 rm2 : Option ProjectMeta}
    {c1 c2 : AnalyzerConfig}
    (htm : tm1.map stripMetaPath = tm2.map stripMetaPath)
    (hrm : rm1.map stripMetaPath = rm2.map stripMetaPath)
    (hc : stripCfgPaths c1 = stripCfgPaths c2) :
    createIdentifier tm1 rm1 c1 = createIdentifier tm2 rm2 c2 := by
  unfold createIdentifier
  rw [encodeOptMeta_congr htm, encodeOptMeta_congr hrm, encodeCfg_congr hc]

theorem stripWrapped_eq_components {w1 w2 : Wrapped ProvMeta}
    (h : stripWrappedPaths w1 = stripWrappedPaths w2) :
    w1.queryOutput = w2.queryOutput ∧
    w1.analyzerMeta.map stripProvMetaPaths = w2.analyzerMeta.map stripProvMetaPaths ∧
    w1.meta.map (fun mb =>
        ({ analyzerMeta := mb.analyzerMeta.map stripProvMetaPaths } : MetaBox ProvMeta)) =
      w2.meta.map (fun mb => { analyzerMeta := mb.analyzerMeta.map stripProvMetaPaths }) := by
  cases w1
  cases w2
  simpa [stripWrappedPaths, Wrapped.mk.injEq] using h

theorem stripCfg_eq_components {c1 c2 : AnalyzerConfig}
    (h : stripCfgPaths c1 = stripCfgPaths c2) :
    c1.skipCheckMatchCompatibility = c2.skipCheckMatchCompatibility ∧
    c1.gatherFilesConfig = c2.gatherFilesConfig ∧
    c1.gatherFilesConfigReference = c2.gatherFilesConfigReference ∧
    c1.targetProjectResult.map stripWrappedPaths =
      c2.targetProjectResult.map stripWrappedPaths ∧
    c1.referenceProjectResult.map stripWrappedPaths =
      c2.referenceProjectResult.map stripWrappedPaths := by
  cases c1
  cases c2
  simpa [stripCfgPaths, AnalyzerConfig.mk.injEq] using h

theorem unwindField_strip_congr {o1 o2 t1 t2 : Option (Wrapped ProvMeta)}
    (h : o1.map stripWrappedPaths = o2.map stripWrappedPaths)
    (h1 : Analyzer.unwindField o1 = Except.ok t1)
    (h2 : Analyzer.unwindField o2 = Except.ok t2) :
    t1.map stripWrappedPaths = t2.map stripWrappedPaths := by
  cases o1 with
  | none =>
    cases o2 with
    | none =>
      simp only [Analyzer.unwindField, Except.ok.injEq] at h1 h2
      subst h1; subst h2
      rfl
    | some w2 => exact Option.noConfusion h
  | some w1 =>
    cases o2 with
    | none => exact Option.noConfusion h
    | some w2 =>
      injection h with h
      obtain ⟨hq, ha, hm⟩ := stripWrapped_eq_components h
      rcases hw1 : w1.analyzerMeta with _ | a1
      · rcases hw2 : w2.analyzerMeta with _ | a2
        · rw [hw1] at ha
          rw [hw2] at ha
          have e1 : Analyzer.unwindField (some w1) =
              (match unwindJsonResult w1 with
               | Except.error e => Except.error e
               | Except.ok u => Except.ok (some u)) := by
            simp [Analyzer.unwindField, hw1]
          rw [e1] at h1
          have e2 : Analyzer.unwindField (some w2) =
              (match unwindJsonResult w2 with
               | Except.error e => Except.error e
               | Except.ok u => Except.ok (some u)) := by
            simp [Analyzer.unwindField, hw2]
          rw [e2] at h2
          rcases hmw1 : w1.meta with _ | mb1 <;> rcases hmw2 : w2.meta with _ | mb2 <;>
            rw [hmw1, hmw2] at hm <;>
            simp only [unwindJsonResult, hmw1, hmw2] at h1 h2
          · exact Except.noConfusion h1
          · exact Except.noConfusion h1
          · exact Except.noConfusion h2
          · injection h1 with h1
            injection h2 with h2
            subst h1; subst h2
            injection hm with hm
            have hm2 : Option.map stripProvMetaPaths mb1.analyzerMeta =
                Option.map stripProvMetaPaths mb2.analyzerMeta := by
              have := congrArg MetaBox.analyzerMeta hm
              simpa using this
            simp only [Option.map_some', stripWrappedPaths]
            rw [hq, hm2]
        · rw [hw1, hw2] at ha
          exact Option.noConfusion ha
      · rcases hw2 : w2.analyzerMeta with _ | a2
        · rw [hw1, hw2] at ha
          exact Option.noConfusion ha
        · have e1 : Analyzer.unwindField (some w1) = Except.ok (some w1) := by
            simp [Analyzer.unwindField, hw1]
          have e2 : Analyzer.unwindField (some w2) = Except.ok (some w2) := by
            simp [Analyzer.unwindField, hw2]
          rw [e1] at h1
          rw [e2] at h2
          injection h1 with h1
          injection h2 with h2
          subst h1; subst h2
          simpa using h

theorem unwindProvidedResults_preserves {cfg cfgU : AnalyzerConfig}
    (h : Analyzer.unwindProvidedResults cfg = Except.ok cfgU) :
    cfgU.targetProjectPath = cfg.targetProjectPath ∧
    cfgU.referenceProjectPath = cfg.referenceProjectPath ∧
    cfgU.skipCheckMatchCompatibility = cfg.skipCheckMatchCompatibility ∧
    cfgU.gatherFilesConfig = cfg.gatherFilesConfig ∧
    cfgU.gatherFilesConfigReference = cfg.gatherFilesConfigReference ∧
    cfgU.targetProjectResult.isNone = cfg.targetProjectResult.isNone ∧
    cfgU.referenceProjectResult.isNone = cfg.referenceProjectResult.isNone := by
  obtain ⟨t, r, ht, hr, rfl⟩ := unwindProvidedResults_ok_inv h
  exact ⟨rfl, rfl, rfl, rfl, rfl, unwindField_isNone ht, unwindField_isNone hr⟩

theorem unwind_strip_congr {cfg1 cfg2 u1 u2 : AnalyzerConfig}
    (h : stripCfgPaths cfg1 = stripCfgPaths cfg2)
    (h1 : Analyzer.unwindProvidedResults cfg1 = Except.ok u1)
    (h2 : Analyzer.unwindProvidedResults cfg2 = Except.ok u2) :
    stripCfgPaths u1 = stripCfgPaths u2 := by
  obtain ⟨hs, hg, hgr, hT, hR⟩ := stripCfg_eq_components h
  obtain ⟨t1, r1, ht1, hr1, rfl⟩ := unwindProvidedResults_ok_inv h1
  obtain ⟨t2, r2, ht2, hr2, rfl⟩ := unwindProvidedResults_ok_inv h2
  have hT' := unwindField_strip_congr hT ht1 ht2
  have hR' := unwindField_strip_congr hR hr1 hr2
  simp only [stripCfgPaths]
  rw [hs, hg, hgr, hT', hR']

theorem resolveTarget_strip_congr {env1 env2 : Env} {u1 u2 : AnalyzerConfig}
    {tm1 tm2 : Option ProjectMeta}
    (hstrip : stripCfgPaths u1 = stripCfgPaths u2)
    (hpm : stripMetaPath (env1.getProjectMeta u1.targetProjectPath) =
           stripMetaPath (env2.getProjectMeta u2.targetProjectPath))
    (h1 : Analyzer.resolveTargetMeta env1 u1 = Except.ok tm1)
    (h2 : Analyzer.resolveTargetMeta env2 u2 = Except.ok tm2) :
    tm1.map stripMetaPath = tm2.map stripMetaPath := by
  obtain ⟨hsk, hgg, hggr, hT, hRr⟩ := stripCfg_eq_components hstrip
  unfold Analyzer.resolveTargetMeta at h1 h2
  rcases hc1 : u1.targetProjectResult with _ | w1 <;>
    rcases hc2 : u2.targetProjectResult with _ | w2 <;>
    simp only [hc1] at h1 hT <;> simp only [hc2] at h2 hT
  · injection h1 with h1
    injection h2 with h2
    subst h1; subst h2
    simp only [Option.map_some']
    rw [hpm]
  · exact absurd hT (by simp)
  · exact absurd hT (by simp)
  · have hT' : stripWrappedPaths w1 = stripWrappedPaths w2 := by simpa using hT
    obtain ⟨hq, ha, hm⟩ := stripWrapped_eq_components hT'
    rcases hw1 : w1.analyzerMeta with _ | a1 <;>
      rcases hw2 : w2.analyzerMeta with _ | a2 <;>
      simp only [hw1] at h1 ha <;> simp only [hw2] at h2 ha
    · exact Except.noConfusion h1
    · exact Except.noConfusion h1
    · exact Except.noConfusion h2
    · injection h1 with h1
      injection h2 with h2
      subst h1; subst h2
      have ham : stripProvMetaPaths a1 = stripProvMetaPaths a2 := by simpa using ha
      have := congrArg ProvMeta.targetProject ham
      simpa [stripProvMetaPaths] using this

theorem resolveReference_strip_congr {env1 env2 : Env} {u1 u2 : AnalyzerConfig}
    {rm1 rm2 : Option ProjectMeta}
    (hstrip : stripCfgPaths u1 = stripCfgPaths u2)
    (htruthy : truthyOpt u1.referenceProjectPath = truthyOpt u2.referenceProjectPath)
    (hpm : stripMetaPath (env1.getProjectMeta u1.referenceProjectPath) =
           stripMetaPath (env2.getProjectMeta u2.referenceProjectPath))
    (h1 : Analyzer.resolveReferenceMeta env1 u1 = Except.ok rm1)
    (h2 : Analyzer.resolveReferenceMeta env2 u2 = Except.ok rm2) :
    rm1.map stripMetaPath = rm2.map stripMetaPath := by
  obtain ⟨hsk, hgg, hggr, hTt, hR⟩ := stripCfg_eq_components hstrip
  have hnone : u1.referenceProjectResult.isNone = u2.referenceProjectResult.isNone := by
    cases hx : u1.referenceProjectResult <;> cases hy : u2.referenceProjectResult <;>
      simp only [hx, hy] at hR ⊢ <;> first | rfl | exact absurd hR (by simp)
  unfold Analyzer.resolveReferenceMeta at h1 h2
  by_cases hcond : (truthyOpt u1.referenceProjectPath && u1.referenceProjectResult.isNone) = true
  · have hcond2 : (truthyOpt u2.referenceProjectPath && u2.referenceProjectResult.isNone) = true := by
      rw [← htruthy, ← hnone]
      exact hcond
    rw [if_pos hcond] at h1
    rw [if_pos hcond2] at h2
    injection h1 with h1
    injection h2 with h2
    subst h1; subst h2
    simp only [Option.map_some']
    rw [hpm]
  · have hcond2 : ¬ (truthyOpt u2.referenceProjectPath && u2.referenceProjectResult.isNone) = true := by
      rw [← htruthy, ← hnone]
      exact hcond
    rw [if_neg hcond] at h1
    rw [if_neg hcond2] at h2
    rcases hc1 : u1.referenceProjectResult with _ | w1 <;>
      rcases hc2 : u2.referenceProjectResult with _ | w2 <;>
      simp only [hc1] at h1 hR <;> simp only [hc2] at h2 hR
    · injection h1 with h1
      injection h2 with h2
      subst h1; subst h2
      rfl
    · exact absurd hR (by simp)
    · exact absurd hR (by simp)
    · have hR' : stripWrappedPaths w1 = stripWrappedPaths w2 := by simpa using hR
      obtain ⟨hq, ha, hm⟩ := stripWrapped_eq_components hR'
      rcases hw1 : w1.analyzerMeta with _ | a1 <;>
        rcases hw2 : w2.analyzerMeta with _ | a2 <;>
        simp only [hw1] at h1 ha <;> simp only [hw2] at h2 ha
      · exact Except.noConfusion h1
      · exact Except.noConfusion h1
      · exact Except.noConfusion h2
      · injection h1 with h1
        injection h2 with h2
        subst h1; subst h2
        have ham : stripProvMetaPaths a1 = stripProvMetaPaths a2 := by simpa using ha
        have := congrArg ProvMeta.targetProject ham
        simpa [stripProvMetaPaths] using this

theorem format_queryOutput_str (win32 : Bool) (s : String) (cfg : AnalyzerConfig)
    (nm ra : String) (tM rM : Option ProjectMeta) (i : String) :
    (ensureAnalyzerResultFormat win32 (Json.str s) cfg nm ra tM rM i).queryOutput =
      Json.str s := by
  cases win32 <;>
    simp [ensureAnalyzerResultFormat, formatCore, stripQueryOutputProjectPaths,
      posixifyExecResult, posixify]

theorem format_analyzerMeta_fields (win32 : Bool) (q : Json) (cfg : AnalyzerConfig)
    (nm ra : String) (tM rM : Option ProjectMeta) (i : String) :
    ∃ m, (ensureAnalyzerResultFormat win32 q cfg nm ra tM rM i).analyzerMeta = some m ∧
      m.name = nm ∧ m.requiredAst = ra ∧ m.identifier = i := by
  cases win32 <;>
    simp [ensureAnalyzerResultFormat, formatCore, posixifyExecResult, posixifyResultMeta]

theorem prepareTail_ok_none_inv {env : Env} {nm : String} {cfgU c : AnalyzerConfig}
    {st0 st : AnalyzerState}
    (h : Analyzer.prepareTail env nm cfgU st0 = Except.ok (c, st, none)) :
    Analyzer.getCachedAnalyzerResult env nm st0.identifier = Except.ok none ∧
    st.targetData = (if cfgU.targetProjectResult.isNone then
        some (env.createDataObject [cfgU.targetProjectPath] cfgU.gatherFilesConfig)
      else st0.targetData) ∧
    st.referenceData = (if truthyOpt cfgU.referenceProjectPath then
        some (env.createDataObject [cfgU.referenceProjectPath]
          (cfgU.gatherFilesConfigReference.getD cfgU.gatherFilesConfig))
      else st0.referenceData) := by
  unfold Analyzer.prepareTail at h
  split at h
  · exact Except.noConfusion h
  · injection h with h
    injection h with h1 h
    injection h with h2 h3
    exact Option.noConfusion h3
  · rename_i hg
    dsimp only at h
    split at h <;> rename_i houter <;> split at h <;> rename_i hinner <;>
      (injection h with h
       injection h with h1 h
       injection h with h2 h3
       subst h1
       subst h2
       exact ⟨hg, by simp [hinner], by simp [houter]⟩)

theorem prepare_ok_none_inv {env : Env} {nm ra : String} {cfg c : AnalyzerConfig}
    {st : AnalyzerState}
    (h : Analyzer.prepare env nm ra cfg = Except.ok (c, st, none)) :
    Analyzer.unwindProvidedResults cfg = Except.ok c ∧
    st.targetData = (if c.targetProjectResult.isNone then
        some (env.createDataObject [c.targetProjectPath] c.gatherFilesConfig)
      else none) ∧
    st.referenceData = (if truthyOpt c.referenceProjectPath then
        some (env.createDataObject [c.referenceProjectPath]
          (c.gatherFilesConfigReference.getD c.gatherFilesConfig))
      else none) := by
  unfold Analyzer.prepare at h
  split at h
  · exact Except.noConfusion h
  · rename_i cfgU hu
    split at h
    · exact Except.noConfusion h
    · rename_i tm rm hm
      dsimp only at h
      split at h
      · split at h
        · injection h with h
          injection h with h1 h
          injection h with h2 h3
          exact Option.noConfusion h3
        · obtain ⟨hg, h1, h2⟩ := prepareTail_ok_none_inv h
          obtain ⟨hc, _, _, _⟩ := prepareTail_ok_inv h
          subst hc
          exact ⟨hu, h1, h2⟩
      · obtain ⟨hg, h1, h2⟩ := prepareTail_ok_none_inv h
        obtain ⟨hc, _, _, _⟩ := prepareTail_ok_inv h
        subst hc
        exact ⟨hu, h1, h2⟩

/-! ## Claim theorems -/

/-- C1: for every pair of readable target and reference manifests,
`checkForMatchCompatibility` returns `{compatible: false, reason:
"no-dependency"}` when the reference manifest's declared name does not appear
in the union of the target manifest's `dependencies` and `devDependencies`;
otherwise, when the target declares a semver range for that dependency (the
first match in the `devDependencies ++ dependencies` order the code searches),
it returns `{compatible: false, reason: "no-matched-version"}` when the
reference's declared version does not satisfy that range, and
`{compatible: true}` otherwise. -/
theorem c1_check_compatibility_gating
    (env : Env) (referencePath targetPath : Option String)
    (refPkg tgtPkg : Manifest)
    (href : env.readManifest referencePath = refPkg)
    (htgt : env.readManifest targetPath = tgtPkg) :
    (refPkg.name ∉ (tgtPkg.dependencies ++ tgtPkg.devDependencies).map Prod.fst →
      checkForMatchCompatibility env referencePath targetPath =
        { compatible := false, reason := some "no-dependency" }) ∧
    (∀ depName rng, (tgtPkg.devDependencies ++ tgtPkg.dependencies).find?
          (fun entry => refPkg.name == entry.1) = some (depName, rng) →
      checkForMatchCompatibility env referencePath targetPath =
        (if env.semverSatisfies refPkg.version rng then
          { compatible := true, reason := none }
        else
          { compatible := false, reason := some "no-matched-version" })) := by
  constructor
  · intro hnot
    have hfind : (tgtPkg.devDependencies ++ tgtPkg.dependencies).find?
        (fun entry => refPkg.name == entry.1) = none := by
      rw [List.find?_eq_none]
      rintro ⟨k, v⟩ hk
      simp only [beq_iff_eq]
      intro hc
      subst hc
      refine hnot (List.mem_map.mpr ⟨(refPkg.name, v), ?_, rfl⟩)
      rcases List.mem_append.mp hk with hk | hk
      · exact List.mem_append.mpr (Or.inr hk)
      · exact List.mem_append.mpr (Or.inl hk)
    simp [checkForMatchCompatibility, href, htgt, hfind]
  · intro depName rng hfind
    by_cases hs : env.semverSatisfies refPkg.version rng = true <;>
      simp [checkForMatchCompatibility, href, htgt, hfind, hs]

/-- Witness for C1 at the spec §8 examples: target manifest declaring
`dep-a: ^1.0.0` against reference `dep-a@1.2.0` (compatible), `dep-a@2.0.0`
(version mismatch) and `dep-b@1.2.0` (not a dependency). -/
theorem c1_check_compatibility_gating_witness :
    checkForMatchCompatibility envBase (some "/work/ref") (some "/work/tgt") =
      { compatible := true, reason := none } ∧
    checkForMatchCompatibility envBase (some "/work/ref2") (some "/work/tgt") =
      { compatible := false, reason := some "no-matched-version" } ∧
    checkForMatchCompatibility envBase (some "/work/refB") (some "/work/tgt") =
      { compatible := false, reason := some "no-dependency" } := by
  refine ⟨?_, ?_, ?_⟩
  · have h := (c1_check_compatibility_gating envBase (some "/work/ref")
      (some "/work/tgt") refManifestA tgtManifest rfl rfl).2 "dep-a" "^1.0.0" rfl
    exact h.trans (by decide)
  · have h := (c1_check_compatibility_gating envBase (some "/work/ref2")
      (some "/work/tgt") refManifestA2 tgtManifest rfl rfl).2 "dep-a" "^1.0.0" rfl
    exact h.trans (by decide)
  · exact (c1_check_compatibility_gating envBase (some "/work/refB")
      (some "/work/tgt") refManifestB tgtManifest rfl rfl).1 (by decide)

/-- C7: for every gathered file list, traversal invokes the per-file analysis
function on each file one at a time in discovery order, and the returned
output contains exactly the processed entries `{file, meta, result}` whose
`result` is non-empty, preserving the discovery order among the kept
entries. -/
theorem c7_traversal_order_and_filter (env : Env) (pd : AstProjectData)
    (f : Json → TraverseContext → AnalysisOut) :
    analyzePerAstEntry env pd f =
      (pd.entries.map (processEntry env pd f)).filter
        (fun e => !e.result.isEmpty) := by
  have hloop : ∀ l, analyzeEntriesLoop env pd f l = l.map (processEntry env pd f) := by
    intro l
    induction l with
    | nil => rfl
    | cons e rest ih => simp [analyzeEntriesLoop, processEntry, ih]
  unfold analyzePerAstEntry
  rw [hloop]
  apply List.filter_congr
  intro e _
  cases he : e.result <;> simp [he]

/-- C8: on a platform whose native separator is not the forward slash,
normalization rewrites every string value stored under a key literally named
`file`, at any nesting depth of the result (including objects nested inside
arrays), to forward-slash form; a string value stored under any other key is
left unchanged; and the formatter applies this rewriting exactly when the
platform is `win32`, so on a forward-slash platform such values are
unchanged. -/
theorem c8_posixify_file_keys :
    (∀ (j : Json) (p : List JStep) (s : String),
        getAt j (p ++ [JStep.key "file"]) = some (Json.str s) →
        getAt (posixify j) (p ++ [JStep.key "file"]) =
          some (Json.str (toPosixPath s))) ∧
    (∀ (j : Json) (p : List JStep) (k s : String), k ≠ "file" →
        getAt j (p ++ [JStep.key k]) = some (Json.str s) →
        getAt (posixify j) (p ++ [JStep.key k]) = some (Json.str s)) ∧
    (∀ (win32 : Bool) (s : String) (cfg : AnalyzerConfig) (nm ra : String)
        (tM rM : Option ProjectMeta) (ident : String),
        getAt (ensureAnalyzerResultFormat win32
            (Json.arr [Json.obj [("file", Json.str s)]]) cfg nm ra tM rM
            ident).queryOutput [JStep.idx 0, JStep.key "file"] =
          some (Json.str (if win32 then toPosixPath s else s))) := by
  refine ⟨?_, ?_, ?_⟩
  · intro j p s h
    have hx := getAt_posixify_key p j "file" s h
    simpa using hx
  · intro j p k s hk h
    have hx := getAt_posixify_key p j k s h
    simpa [hk] using hx
  · intro win32 s cfg nm ra tM rM ident
    cases win32 <;>
      simp [ensureAnalyzerResultFormat, formatCore, posixifyExecResult,
        stripQueryOutputProjectPaths, stripEntryProjectPath, posixify,
        posixifyList, posixifyPairs, getAt, lookupJson]

/-- Witness for C8 at the spec §8 example value: `{deep: {file: "a\\b\\c.js",
other: "a\\b"}}` — the `file` string is rewritten to `a/b/c.js`, the string
under `other` is untouched. -/
theorem c8_posixify_file_keys_witness :
    getAt (posixify jC8) [JStep.key "deep", JStep.key "file"] =
      some (Json.str "a/b/c.js") ∧
    getAt (posixify jC8) [JStep.key "deep", JStep.key "other"] =
      some (Json.str "a\\b") := by
  constructor
  · have h := c8_posixify_file_keys.1 jC8 [JStep.key "deep"] "a\\b\\c.js" rfl
    have hs : toPosixPath "a\\b\\c.js" = "a/b/c.js" := by decide
    rw [hs] at h
    exact h
  · exact c8_posixify_file_keys.2.1 jC8 [JStep.key "deep"] "other" "a\\b"
      (by decide) rfl

/-- Counterexample to C4 as stated: this concrete run completes its finalize
phase, yet the list of Cache Store writes performed during the call is empty
(the `Analyzer` source contains no cache-write call), so no entry is written
under `(analyzerName, identifier)` before `_finalize` returns; the
finalize-level conjunct shows `_finalize` itself performs no write either. -/
theorem c4_counterexample :
    execFinalizeRan (Analyzer.execute envBase "match-x" "babel" astNoop cfgBase) =
      some true ∧
    execCacheWrites (Analyzer.execute envBase "match-x" "babel" astNoop cfgBase) =
      [] ∧
    (Analyzer.finalize false "match-x" "babel" stBase
      (Analyzer.entriesToJson []) cfgBase).2 = [] :=
  ⟨rfl, rfl, rfl⟩

/-- C4 amended: `_finalize` normalizes the query output and returns the result
without writing to the Cache Store, and no point of the `execute` lifecycle
performs a cache write (cache population is left to code outside this core). -/
theorem c4_amended_no_cache_writes (win32 : Bool) (nm ra : String)
    (st : AnalyzerState) (q : Json) (cfg : AnalyzerConfig) (env : Env)
    (f : Json → TraverseContext → AnalysisOut) (customConfig : AnalyzerConfig) :
    (Analyzer.finalize win32 nm ra st q cfg).2 = [] ∧
    execCacheWrites (Analyzer.execute env nm ra f customConfig) = [] := by
  constructor
  · rfl
  · unfold execCacheWrites
    rcases hx : Analyzer.execute env nm ra f customConfig with e | pr
    · rfl
    · obtain ⟨res, tr⟩ := pr
      rcases execute_ok_inv hx with ⟨cx, stx, hp, htr⟩ | ⟨cx, stx, q', hp, hq, hres, htr⟩ <;>
        (subst htr; rfl)

/-- Counterexample to C9 as stated: on this cache miss (`_prepare` returns "no
short-circuit", first conjunct) a `targetProjectResult` was provided, and the
target project's file data is not loaded: `targetData` stays absent. -/
theorem c9_counterexample :
    prepareShortCircuited
      (Analyzer.prepare envBase "match-x" "babel" cfgProvidedTarget) = some false ∧
    prepareTargetData
      (Analyzer.prepare envBase "match-x" "babel" cfgProvidedTarget) = some none :=
  ⟨rfl, rfl⟩

/-- C9 amended: on a cache miss, `_prepare` loads the target project's file
data via the File Gatherer using `gatherFilesConfig` exactly when no
`targetProjectResult` was provided, and, when a truthy `referenceProjectPath`
is given, loads the reference project's file data using
`gatherFilesConfigReference` or, if that is absent, `gatherFilesConfig`,
before signalling that `execute` should proceed to traversal. -/
theorem c9_amended_gathering (env : Env) (nm ra : String)
    (cfg c : AnalyzerConfig) (st : AnalyzerState)
    (h : Analyzer.prepare env nm ra cfg = Except.ok (c, st, none)) :
    (cfg.targetProjectResult = none →
      st.targetData =
        some (env.createDataObject [cfg.targetProjectPath] cfg.gatherFilesConfig)) ∧
    (cfg.targetProjectResult ≠ none → st.targetData = none) ∧
    (truthyOpt cfg.referenceProjectPath = true →
      st.referenceData = some (env.createDataObject [cfg.referenceProjectPath]
        (cfg.gatherFilesConfigReference.getD cfg.gatherFilesConfig))) := by
  obtain ⟨hu, h1, h2⟩ := prepare_ok_none_inv h
  obtain ⟨p1, p2, p3, p4, p5, p6, p7⟩ := unwindProvidedResults_preserves hu
  refine ⟨?_, ?_, ?_⟩
  · intro ht
    rw [h1, p1, p4, if_pos]
    rw [p6, ht]
    rfl
  · intro ht
    rw [h1, if_neg]
    rw [p6]
    simpa [Option.isNone_iff_eq_none] using ht
  · intro hr
    rw [h2, p2, p5, p4, if_pos]
    exact hr

/-- Witness for C9's amended theorem on the concrete miss of
`envBase`/`cfgBase`: the target data is gathered with `gatherFilesConfig`. -/
theorem c9_amended_gathering_witness :
    stBase.targetData =
      some (envBase.createDataObject [cfgBase.targetProjectPath]
        cfgBase.gatherFilesConfig) :=
  (c9_amended_gathering envBase "match-x" "babel" cfgBase cfgBase stBase rfl).1 rfl

/-- C6: the identifier computed during `_prepare` is a pure function of
logical project identity and configuration with all filesystem paths excluded
from its input: two invocations (of the spec-modelled Identifier Service)
that differ only in the absolute directory locations of the target and/or
reference projects — same manifest names and versions reported by the
Project Metadata Provider, same analyzer configuration up to path fields —
derive the same identifier. -/
theorem c6_identifier_path_independent
    (env1 env2 : Env) (nm ra : String) (cfg1 cfg2 c1 c2 : AnalyzerConfig)
    (st1 st2 : AnalyzerState) (o1 o2 : Option ExecResult)
    (hcfg : stripCfgPaths cfg1 = stripCfgPaths cfg2)
    (htruthy : truthyOpt cfg1.referenceProjectPath =
      truthyOpt cfg2.referenceProjectPath)
    (htm : stripMetaPath (env1.getProjectMeta cfg1.targetProjectPath) =
      stripMetaPath (env2.getProjectMeta cfg2.targetProjectPath))
    (hrm : stripMetaPath (env1.getProjectMeta cfg1.referenceProjectPath) =
      stripMetaPath (env2.getProjectMeta cfg2.referenceProjectPath))
    (h1 : Analyzer.prepare env1 nm ra cfg1 = Except.ok (c1, st1, o1))
    (h2 : Analyzer.prepare env2 nm ra cfg2 = Except.ok (c2, st2, o2)) :
    st1.identifier = st2.identifier := by
  obtain ⟨tm1, rm1, hu1, ht1, hr1, _, _, hi1⟩ := prepare_ok_inv h1
  obtain ⟨tm2, rm2, hu2, ht2, hr2, _, _, hi2⟩ := prepare_ok_inv h2
  have hstripU := unwind_strip_congr hcfg hu1 hu2
  obtain ⟨p11, p12, _, _, _, _, _⟩ := unwindProvidedResults_preserves hu1
  obtain ⟨p21, p22, _, _, _, _, _⟩ := unwindProvidedResults_preserves hu2
  rw [hi1, hi2]
  refine createIdentifier_congr ?_ ?_ hstripU
  · refine resolveTarget_strip_congr hstripU ?_ ht1 ht2
    rw [p11, p21]
    exact htm
  · refine resolveReference_strip_congr hstripU ?_ ?_ hr1 hr2
    · rw [p12, p22]
      exact htruthy
    · rw [p12, p22]
      exact hrm

/-- Witness for C6: the same logical project prepared from two different
checkout directories (`/work/tgt` vs `/other/tgt`, with the Project Metadata
Provider reporting the corresponding machine paths) derives the same
identifier. -/
theorem c6_identifier_path_independent_witness :
    stBase.identifier = stBase2.identifier :=
  c6_identifier_path_independent envBase envBase2 "match-x" "babel"
    cfgBase cfgBase2 cfgBase cfgBase2 stBase stBase2 none none
    rfl rfl rfl rfl rfl rfl

/-- C10: a provided `targetProjectResult` / `referenceProjectResult` without
an `analyzerMeta` property is unwrapped by reading `meta.analyzerMeta` of the
supplied object; hence when such a result also lacks a `meta` object,
`execute` aborts with a thrown `TypeError` instead of returning a result; and
the same unwrap is applied to every value returned by the Cache Store before
it is tagged `__fromCache` (a stored value without `meta` likewise throws). -/
theorem c10_unwrap_provided_and_cached :
    (∀ (o : Option (Wrapped ProvMeta)) (w : Wrapped ProvMeta)
        (mb : MetaBox ProvMeta),
        o = some w → w.analyzerMeta = none → w.meta = some mb →
        Analyzer.unwindField o =
          Except.ok (some { queryOutput := w.queryOutput,
                            analyzerMeta := mb.analyzerMeta, meta := none })) ∧
    (∀ (env : Env) (nm ra : String) (f : Json → TraverseContext → AnalysisOut)
        (cfg : AnalyzerConfig) (w : Wrapped ProvMeta),
        cfg.targetProjectResult = some w → w.analyzerMeta = none → w.meta = none →
        Analyzer.execute env nm ra f cfg = Except.error JsErr.typeError) ∧
    (∀ (env : Env) (nm ra : String) (f : Json → TraverseContext → AnalysisOut)
        (cfg : AnalyzerConfig) (w : Wrapped ProvMeta),
        okProvided cfg.targetProjectResult →
        cfg.referenceProjectResult = some w → w.analyzerMeta = none →
        w.meta = none →
        Analyzer.execute env nm ra f cfg = Except.error JsErr.typeError) ∧
    (∀ (env : Env) (n i : String) (cached : Wrapped ResultMeta),
        env.getCachedResult n i = some cached → cached.meta = none →
        Analyzer.getCachedAnalyzerResult env n i = Except.error JsErr.typeError) ∧
    (∀ (env : Env) (n i : String) (cached : Wrapped ResultMeta)
        (mb : MetaBox ResultMeta) (am : ResultMeta),
        env.getCachedResult n i = some cached → cached.meta = some mb →
        mb.analyzerMeta = some am →
        Analyzer.getCachedAnalyzerResult env n i =
          Except.ok (some { queryOutput := cached.queryOutput,
                            analyzerMeta := some { am with fromCache := true } })) := by
  refine ⟨?_, ?_, ?_, ?_, ?_⟩
  · intro o w mb ho ha hm
    subst ho
    simp [Analyzer.unwindField, ha, unwindJsonResult, hm]
  · intro env nm ra f cfg w hT ha hm
    simp [Analyzer.execute, Analyzer.prepare, Analyzer.unwindProvidedResults,
      Analyzer.unwindField, unwindJsonResult, hT, ha, hm]
  · intro env nm ra f cfg w hok hR ha hm
    obtain ⟨t, ht, _⟩ := unwindField_of_okProvided _ hok
    have hrw : Analyzer.unwindField (some w) = Except.error JsErr.typeError := by
      simp [Analyzer.unwindField, ha, unwindJsonResult, hm]
    simp [Analyzer.execute, Analyzer.prepare, Analyzer.unwindProvidedResults,
      ht, hR, hrw]
  · intro env n i cached hw hm
    simp [Analyzer.getCachedAnalyzerResult, unwindJsonResult, hw, hm]
  · intro env n i cached mb am hw hm ham
    simp [Analyzer.getCachedAnalyzerResult, unwindJsonResult, hw, hm, ham]

/-- Witness for C10: `execute` with a provided target result lacking both
`analyzerMeta` and `meta` throws a `TypeError`; a primed Cache Store value is
unwound and tagged `__fromCache`. -/
theorem c10_unwrap_provided_and_cached_witness :
    Analyzer.execute envBase "match-x" "babel" astNoop cfgBrokenTarget =
      Except.error JsErr.typeError ∧
    Analyzer.getCachedAnalyzerResult envPrimed "match-x" "stored-id" =
      Except.ok (some { queryOutput := storedEntry.queryOutput,
                        analyzerMeta := some { storedMeta with fromCache := true } }) :=
  ⟨c10_unwrap_provided_and_cached.2.1 envBase "match-x" "babel" astNoop
      cfgBrokenTarget brokenWrapped rfl rfl rfl,
    c10_unwrap_provided_and_cached.2.2.2.2 envPrimed "match-x" "stored-id"
      storedEntry { analyzerMeta := some storedMeta } storedMeta rfl rfl rfl⟩

/-- Counterexample to C5 as stated: the first call
`Analyzer.execute envBase "match-x" "babel" astNoop cfgBase` performs no Cache
Store write (first conjunct), so the store is unchanged between the calls and
the second call is the same computation on the same store; that call re-runs
traversal (third conjunct) and returns a result whose `__fromCache` is not
`true` (second conjunct), contradicting the claimed cache hit. -/
theorem c5_counterexample :
    execCacheWrites (Analyzer.execute envBase "match-x" "babel" astNoop cfgBase) =
      [] ∧
    execFromCacheFlag (Analyzer.execute envBase "match-x" "babel" astNoop cfgBase) =
      some (some false) ∧
    execTraverseRan (Analyzer.execute envBase "match-x" "babel" astNoop cfgBase) =
      some true :=
  ⟨rfl, rfl, rfl⟩

/-- C5 amended: two `execute` calls with logically identical configuration
derive the same identifier (see the C6 theorem); but the second call returns
`__fromCache: true` with the stored `queryOutput`, skipping traversal, only
when the Cache Store has been populated under that identifier by a writer
outside `execute` between the calls — `execute` itself never writes the store
(see the C4 theorems), so with an unchanged empty store the second call
re-runs traversal and returns a fresh result without `__fromCache`. This
theorem proves the populated-store half: when the store maps the derived
identifier to a wrapped entry, `execute` returns that entry's `queryOutput`
tagged `__fromCache: true` and neither traverse nor finalize runs. -/
theorem c5_amended_second_call_cache_hit (env : Env) (nm ra : String)
    (f : Json → TraverseContext → AnalysisOut) (cfg : AnalyzerConfig)
    (entry : Wrapped ResultMeta) (am : ResultMeta)
    (hT : cfg.targetProjectResult = none)
    (hR : cfg.referenceProjectResult = none)
    (hRef : cfg.referenceProjectPath = none)
    (hcache : env.getCachedResult nm
        (createIdentifier (some (env.getProjectMeta cfg.targetProjectPath))
          none cfg) = some entry)
    (hmeta : entry.meta = some { analyzerMeta := some am }) :
    Analyzer.execute env nm ra f cfg =
      Except.ok ({ queryOutput := entry.queryOutput,
                   analyzerMeta := some { am with fromCache := true } },
                 { traverseRan := false, finalizeRan := false, cacheWrites := [] }) := by
  obtain ⟨tp, rp, sk, gf, gfr, tr, rr⟩ := cfg
  dsimp only at hT hR hRef hcache
  subst hT
  subst hR
  subst hRef
  simp [Analyzer.execute, Analyzer.prepare, Analyzer.unwindProvidedResults,
    Analyzer.unwindField, Analyzer.resolveProjectMetas, Analyzer.resolveTargetMeta,
    Analyzer.resolveReferenceMeta, Analyzer.prepareTail,
    Analyzer.getCachedAnalyzerResult, unwindJsonResult, truthyOpt,
    hcache, hmeta]

/-- Witness for C5's amended theorem: with the store primed with
`storedEntry` for every key, the call returns the stored `queryOutput`
tagged `__fromCache: true`, with no traversal. -/
theorem c5_amended_second_call_cache_hit_witness :
    Analyzer.execute envPrimed "match-x" "babel" astNoop cfgBase =
      Except.ok ({ queryOutput := storedEntry.queryOutput,
                   analyzerMeta := some { storedMeta with fromCache := true } },
                 { traverseRan := false, finalizeRan := false, cacheWrites := [] }) :=
  c5_amended_second_call_cache_hit envPrimed "match-x" "babel" astNoop cfgBase
    storedEntry storedMeta rfl rfl rfl rfl rfl

/-- C2: for every config with a truthy `referenceProjectPath`,
`skipCheckMatchCompatibility` unset and consumable provided results, if the
compatibility check fails with reason `r` then `execute` returns (rather than
throws) a normally-formatted result whose `queryOutput` is the sentinel
string `"[r]"`, carrying the analyzer's `name`, `requiredAst` and
`identifier` and satisfying the sanitization invariant of §4.4, and neither
the traverse nor the finalize phase runs on that call. -/
theorem c2_incompatibility_skip_result (env : Env) (nm ra : String)
    (f : Json → TraverseContext → AnalysisOut) (cfg : AnalyzerConfig)
    (r : String)
    (hT : okProvided cfg.targetProjectResult)
    (hR : okProvided cfg.referenceProjectResult)
    (href : truthyOpt cfg.referenceProjectPath = true)
    (hskip : cfg.skipCheckMatchCompatibility = false)
    (hcheck : checkForMatchCompatibility env cfg.referenceProjectPath
        cfg.targetProjectPath =
      { compatible := false, reason := some r }) :
    ∃ res, Analyzer.execute env nm ra f cfg =
        Except.ok (res,
          { traverseRan := false, finalizeRan := false, cacheWrites := [] }) ∧
      res.queryOutput = Json.str ("[" ++ r ++ "]") ∧
      SanitizedResult res ∧
      (∃ m, res.analyzerMeta = some m ∧ m.name = nm ∧ m.requiredAst = ra) := by
  obtain ⟨cfgU, hu, hot, hor⟩ := unwindProvidedResults_of_okProvided cfg hT hR
  obtain ⟨tm, htm⟩ := resolveTargetMeta_of_okResolved env cfgU hot
  obtain ⟨rm, hrm⟩ := resolveReferenceMeta_of_okResolved env cfgU hor
  obtain ⟨p1, p2, p3, _, _, _, _⟩ := unwindProvidedResults_preserves hu
  have hcond : (truthyOpt cfgU.referenceProjectPath &&
      !cfgU.skipCheckMatchCompatibility) = true := by
    rw [p2, p3, href, hskip]
    rfl
  have hcheckU : checkForMatchCompatibility env cfgU.referenceProjectPath
      cfgU.targetProjectPath = { compatible := false, reason := some r } := by
    rw [p1, p2]
    exact hcheck
  have hprep : Analyzer.prepare env nm ra cfg =
      Except.ok (cfgU,
        { targetProjectMeta := tm, referenceProjectMeta := rm,
          identifier := createIdentifier tm rm cfgU,
          targetData := none, referenceData := none },
        some (ensureAnalyzerResultFormat env.win32
          (Json.str ("[" ++ r ++ "]")) cfgU nm ra tm rm
          (createIdentifier tm rm cfgU))) := by
    unfold Analyzer.prepare
    simp only [hu, Analyzer.resolveProjectMetas, htm, hrm]
    rw [if_pos hcond]
    rw [hcheckU]
    simp
  refine ⟨ensureAnalyzerResultFormat env.win32 (Json.str ("[" ++ r ++ "]"))
    cfgU nm ra tm rm (createIdentifier tm rm cfgU), ?_, ?_, ?_, ?_⟩
  · unfold Analyzer.execute
    dsimp only
    rw [hprep]
  · exact format_queryOutput_str env.win32 ("[" ++ r ++ "]") cfgU nm ra tm rm _
  · exact sanitized_format env.win32 (Json.str ("[" ++ r ++ "]")) cfgU nm ra tm rm _
  · obtain ⟨m, hm, h1, h2, _⟩ := format_analyzerMeta_fields env.win32
      (Json.str ("[" ++ r ++ "]")) cfgU nm ra tm rm (createIdentifier tm rm cfgU)
    exact ⟨m, hm, h1, h2⟩

/-- Witness for C2 on the concrete version-incompatible pair
(`cfgWithRef2` selects the reference manifest `dep-a@2.0.0` against the
target's declared range `^1.0.0`): the skip-result carries
`"[no-matched-version]"` and no phase beyond prepare runs. -/
theorem c2_incompatibility_skip_result_witness :
    ∃ res, Analyzer.execute envBase "match-x" "babel" astNoop cfgWithRef2 =
        Except.ok (res,
          { traverseRan := false, finalizeRan := false, cacheWrites := [] }) ∧
      res.queryOutput = Json.str "[no-matched-version]" ∧
      SanitizedResult res ∧
      (∃ m, res.analyzerMeta = some m ∧ m.name = "match-x" ∧
        m.requiredAst = "babel") :=
  c2_incompatibility_skip_result envBase "match-x" "babel" astNoop cfgWithRef2
    "no-matched-version" trivial trivial rfl rfl rfl

/-- C3: every `AnalyzerQueryResult` that `execute` returns satisfies the
sanitization invariant — its `analyzerMeta.configuration` contains neither
`targetProjectPath` nor `referenceProjectPath` nor both of
`targetProjectResult`/`referenceProjectResult`; its `targetProject` and
`referenceProject`, when present, contain no `path`; and when the
`queryOutput` is an array, no entry's nested `project` object contains a
`path` — given that the external Cache Store holds only sanitized entries
(spec §6: stored values are previously persisted, §4.4-normalized results);
results built by the formatter are sanitized unconditionally, a cache hit is
returned as stored. -/
theorem c3_execute_results_sanitized (env : Env) (nm ra : String)
    (f : Json → TraverseContext → AnalysisOut) (cfg : AnalyzerConfig)
    (res : ExecResult) (tr : Analyzer.ExecTrace)
    (hstore : CacheStoreSanitized env)
    (h : Analyzer.execute env nm ra f cfg = Except.ok (res, tr)) :
    SanitizedResult res := by
  rcases execute_ok_inv h with ⟨c, st, hp, _⟩ | ⟨c, st, q, hp, hq, hres, _⟩
  · rcases prepare_ok_some_inv hp with ⟨s, hfmt⟩ | hcache
    · rw [hfmt]
      exact sanitized_format env.win32 (Json.str s) c nm ra
        st.targetProjectMeta st.referenceProjectMeta st.identifier
    · obtain ⟨w, mb, am, hw, hm, ha, hr'⟩ := getCached_ok_some_inv hcache
      obtain ⟨hqc, hmc⟩ := hstore _ _ _ hw
      subst hr'
      constructor
      · intro m hm'
        rw [Option.mem_def] at hm'
        simp only [Option.some.injEq] at hm'
        subst hm'
        exact hmc mb (Option.mem_def.mpr hm) am (Option.mem_def.mpr ha)
      · exact hqc
  · rw [hres]
    exact sanitized_format env.win32 (Analyzer.entriesToJson q) c nm ra
      st.targetProjectMeta st.referenceProjectMeta st.identifier

/-- Witness for C3 on the concrete full run of `envBase` / `cfgBase` (whose
Cache Store is everywhere empty, so the store hypothesis holds vacuously). -/
theorem c3_execute_results_sanitized_witness : SanitizedResult resBase :=
  c3_execute_results_sanitized envBase "match-x" "babel" astNoop cfgBase
    resBase { traverseRan := true, finalizeRan := true, cacheWrites := [] }
    (fun _ _ _ hw => Option.noConfusion hw) rfl

end Providence